import Mathlib

/-!
# Verification of the colourziller mask/paint core

Shallow embedding of the algorithmic core of the repository:
* `src/lib/colorUtils.ts`  — RGB↔HSL conversions and the paint blend engine,
* `src/lib/maskGenerator.ts` — flood-fill segmentation and normal grouping,
* `src/lib/maskUtils.ts`   — pixel-ownership lookup and smart grouping.

JavaScript `number` arithmetic is modelled with exact real numbers `ℝ`
(quantized channel values, which are always integers in the source, are
modelled with `ℤ`).  `Math.round x` is modelled by `round x = ⌊x + 1/2⌋`,
which agrees with JavaScript's `Math.round` on every real input.
-/

namespace Colourziller

/-- HSL colour triple, as returned by `rgbToHsl` (`src/lib/types.ts`). -/
structure HSL where
  h : ℝ
  s : ℝ
  l : ℝ

namespace ColorUtils

/-- `rgbToHsl` from `src/lib/colorUtils.ts`.  Channels are divided by 255,
lightness is the mid-range, saturation and hue follow the standard sector
formulas.  The JS `switch (max)` matches `case r` first, then `case g`,
then `case b`; since `max` is one of the three channels the final branch
is exactly the `case b` arm. -/
noncomputable def rgbToHsl (r g b : ℝ) : HSL :=
  let r' := r / 255
  let g' := g / 255
  let b' := b / 255
  let mx := max r' (max g' b')
  let mn := min r' (min g' b')
  let l := (mx + mn) / 2
  if mx = mn then ⟨0, 0, l⟩
  else
    let d := mx - mn
    let s := if l > 1/2 then d / (2 - mx - mn) else d / (mx + mn)
    let h :=
      if mx = r' then ((g' - b') / d + (if g' < b' then 6 else 0)) / 6
      else if mx = g' then ((b' - r') / d + 2) / 6
      else ((r' - g') / d + 4) / 6
    ⟨h * 360, s, l⟩

/-- The two wrap steps at the top of the `hue2rgb` helper in
`src/lib/colorUtils.ts`: `if (t < 0) t += 1; if (t > 1) t -= 1;`. -/
noncomputable def hueWrap (t : ℝ) : ℝ :=
  let t₁ := if t < 0 then t + 1 else t
  if t₁ > 1 then t₁ - 1 else t₁

/-- The `hue2rgb` helper closed over by `hslToRgb` in `src/lib/colorUtils.ts`. -/
noncomputable def hue2rgb (p q t : ℝ) : ℝ :=
  let t₂ := hueWrap t
  if t₂ < 1/6 then p + (q - p) * 6 * t₂
  else if t₂ < 1/2 then q
  else if t₂ < 2/3 then p + (q - p) * (2/3 - t₂) * 6
  else p

/-- `hslToRgb` from `src/lib/colorUtils.ts`.  The returned channels are the
rounded integers `Math.round (c * 255)`. -/
noncomputable def hslToRgb (h s l : ℝ) : ℤ × ℤ × ℤ :=
  let h' := h / 360
  if s = 0 then
    (round (l * 255), round (l * 255), round (l * 255))
  else
    let q := if l < 1/2 then l * (1 + s) else l + s - l * s
    let p := 2 * l - q
    (round (hue2rgb p q (h' + 1/3) * 255),
     round (hue2rgb p q h' * 255),
     round (hue2rgb p q (h' - 1/3) * 255))

/-- `softSigmoid` from `src/lib/colorUtils.ts`. -/
noncomputable def softSigmoid (x center steepness : ℝ) : ℝ :=
  1 / (1 + Real.exp (-steepness * (x - center)))

/-- `smoothstep` from `src/lib/colorUtils.ts`. -/
noncomputable def smoothstep (edge0 edge1 x : ℝ) : ℝ :=
  let t := max 0 (min 1 ((x - edge0) / (edge1 - edge0)))
  t * t * (3 - 2 * t)

/-- `hermite` from `src/lib/colorUtils.ts`. -/
def hermite (t : ℝ) : ℝ :=
  t * t * (3 - 2 * t)

/-- The luminance stage of `applyPaintColor`: blend the paint lightness
with the base's hermite-smoothed luminance delta, soft-clamp near the
extremes, and clamp into `[0.02, 0.98]`. -/
noncomputable def blendLightness (baseHsl paintHsl : HSL) : ℝ :=
  let lumDelta := baseHsl.l - 0.5
  let smoothedDelta := lumDelta * hermite (|lumDelta| * 2)
  let lumWeight : ℝ := 0.45
  let resultL₀ := paintHsl.l + smoothedDelta * lumWeight
  let resultL₁ :=
    if resultL₀ > 0.9 then 0.9 + smoothstep 0.9 1 resultL₀ * 0.08
    else if resultL₀ < 0.1 then 0.1 - smoothstep 0 0.1 (1 - resultL₀) * 0.08
    else resultL₀
  min 0.98 (max 0.02 resultL₁)

/-- The saturation stage of `applyPaintColor`: paint saturation weighted
0.85 against a base-influenced term, boosted by 1.08 with a soft cap at 1. -/
noncomputable def blendSaturation (baseHsl paintHsl : HSL) : ℝ :=
  let satBlend : ℝ := 0.15
  let resultS₀ := paintHsl.s * (1 - satBlend) +
    (paintHsl.s * (0.8 + baseHsl.s * 0.4)) * satBlend
  min 1 (resultS₀ * 1.08)

/-- The sequential hue-difference wrap in `applyPaintColor`:
`if (hueDiff > 180) hueDiff -= 360; if (hueDiff < -180) hueDiff += 360;`. -/
noncomputable def wrapHueDiff (x : ℝ) : ℝ :=
  let hd1 := if x > 180 then x - 360 else x
  if hd1 < -180 then hd1 + 360 else hd1

/-- The sequential hue wrap in `applyPaintColor`:
`if (resultH < 0) resultH += 360; if (resultH >= 360) resultH -= 360;`. -/
noncomputable def wrapHue (x : ℝ) : ℝ :=
  let rh1 := if x < 0 then x + 360 else x
  if rh1 ≥ 360 then rh1 - 360 else rh1

/-- The hue stage of `applyPaintColor`: the paint hue, nudged by 3% of the
wrapped hue difference scaled by base saturation, only on visibly
saturated bases. -/
noncomputable def blendHue (baseHsl paintHsl : HSL) : ℝ :=
  if baseHsl.s > 0.1 then
    let hueInfluence := 0.03 * baseHsl.s
    wrapHue (paintHsl.h + wrapHueDiff (baseHsl.h - paintHsl.h) * hueInfluence)
  else paintHsl.h

/-- The normal-map lighting factor of `applyPaintColor`: sigmoid-smoothed
diffuse term against the fixed light direction `(0.1, -0.2, 0.97)`. -/
noncomputable def lightingFactor (n : ℤ × ℤ × ℤ) : ℝ :=
  let nx := ((n.1 : ℝ) / 255) * 2 - 1
  let ny := ((n.2.1 : ℝ) / 255) * 2 - 1
  let nz := (n.2.2 : ℝ) / 255
  let lightX : ℝ := 0.1
  let lightY : ℝ := -0.2
  let lightZ : ℝ := 0.97
  let dot := nx * lightX + ny * lightY + nz * lightZ
  let smoothDot := softSigmoid dot 0.5 3
  0.8 + smoothDot * 0.35

/-- `applyPaintColor` from `src/lib/colorUtils.ts`: repaint a base pixel with
a paint colour, preserving the base's luminance texture, with an optional
normal-map lighting pass; the stages (luminance, saturation, hue, normal
lighting) are the named helpers above, in source order.  Input pixels are
the integer RGB triples the renderer passes in; the output is the rounded
RGB triple of `hslToRgb`. -/
noncomputable def applyPaintColor (basePixel paintColor : ℤ × ℤ × ℤ)
    (normalPixel : Option (ℤ × ℤ × ℤ)) : ℤ × ℤ × ℤ :=
  let baseHsl := rgbToHsl basePixel.1 basePixel.2.1 basePixel.2.2
  let paintHsl := rgbToHsl paintColor.1 paintColor.2.1 paintColor.2.2
  let resultL₂ := blendLightness baseHsl paintHsl
  let resultS₁ := blendSaturation baseHsl paintHsl
  let resultH := blendHue baseHsl paintHsl
  match normalPixel with
  | none => hslToRgb resultH resultS₁ resultL₂
  | some n =>
      let lf := lightingFactor n
      let resultL₃ := min 0.98 (max 0.02 (resultL₂ * lf))
      let lightDeviation := |lf - 1|
      let resultS₂ := resultS₁ * (1 - lightDeviation * 0.15)
      hslToRgb resultH resultS₂ resultL₃

/-- One hex byte, as produced by `x.toString(16).padStart(2, '0')` in
`rgbToHex`; the source only ever feeds it integers in `[0, 255]`. -/
def hexByte (n : ℤ) : String :=
  let s := (Nat.toDigits 16 n.toNat).asString
  if s.length < 2 then "0" ++ s else s

/-- `rgbToHex` from `src/lib/colorUtils.ts`. -/
def rgbToHex (r g b : ℤ) : String :=
  "#" ++ hexByte r ++ hexByte g ++ hexByte b

/-- `generateDistinctColor` from `src/lib/colorUtils.ts`: golden-ratio hue
stepping with saturation/lightness tiers keyed by `index mod 3` and
`index mod 2`.  The JS float remainder `x % 360` on the nonnegative
product is `x - 360 * ⌊x / 360⌋`. -/
noncomputable def generateDistinctColor (index : ℕ) : String :=
  let goldenRatio : ℝ := 0.618033988749895
  let x := (index : ℝ) * goldenRatio * 360
  let hue := x - 360 * ⌊x / 360⌋
  let saturation := 0.7 + ((index % 3 : ℕ) : ℝ) * 0.1
  let lightness := 0.5 + ((index % 2 : ℕ) : ℝ) * 0.15
  let rgb := hslToRgb hue saturation lightness
  rgbToHex rgb.1 rgb.2.1 rgb.2.2

end ColorUtils

/-- `BoundingBox` from `src/lib/types.ts`; coordinates of actual region
members are natural pixel coordinates. -/
structure BoundingBox where
  minX : ℕ
  minY : ℕ
  maxX : ℕ
  maxY : ℕ
deriving DecidableEq

/-- `SerializedMask` from `src/lib/types.ts`.  `avgNormal` is produced by
`Math.round` in the source and is therefore an integer triple. -/
structure SerializedMask where
  id : ℕ
  pixelIndices : List ℕ
  bounds : BoundingBox
  avgNormal : ℤ × ℤ × ℤ
  pixelCount : ℕ
  displayColor : String
deriving DecidableEq

/-- `MaskData` from `src/lib/types.ts`. -/
structure MaskData where
  imageSetId : String
  width : ℕ
  height : ℕ
  masks : List SerializedMask
  generatedAt : String

namespace MaskUtils

/-- `buildPixelLookup` from `src/lib/maskUtils.ts`, without the session
cache (the cache only memoizes this pure computation per image-set id).
The `Int32Array` of length `width * height`, initialised to `-1` and
overwritten at each member pixel with the owning mask's id, is modelled
as a function from pixel address to stored value; an out-of-range store
on an `Int32Array` is a no-op, hence the bounds guard on the write. -/
def buildPixelLookup (maskData : MaskData) : ℕ → ℤ :=
  let totalPixels := maskData.width * maskData.height
  maskData.masks.foldl
    (fun lookup mask =>
      mask.pixelIndices.foldl
        (fun lk pixelIdx =>
          fun q => if q = pixelIdx ∧ pixelIdx < totalPixels then (mask.id : ℤ) else lk q)
        lookup)
    (fun _ => -1)

/-- `findMaskAtPoint` from `src/lib/maskUtils.ts`: bounds check first,
then one lookup read and a linear search for the mask with that id. -/
def findMaskAtPoint (x y : ℤ) (maskData : MaskData) (lookup : ℕ → ℤ) :
    Option SerializedMask :=
  if x < 0 ∨ (maskData.width : ℤ) ≤ x ∨ y < 0 ∨ (maskData.height : ℤ) ≤ y then
    none
  else
    let pixelIdx := (y.toNat * maskData.width + x.toNat)
    let maskId := lookup pixelIdx
    if maskId = -1 then none
    else maskData.masks.find? (fun m => (m.id : ℤ) = maskId)

/-- `normalizeVector` from `src/lib/maskUtils.ts` (the identical helper also
appears in `src/lib/maskGenerator.ts`): map channels from `[0,255]` to
`[-1,1]` and L2-normalize, sending a zero-length vector to `[0,0,1]`. -/
noncomputable def normalizeVector (rgb : ℤ × ℤ × ℤ) : ℝ × ℝ × ℝ :=
  let x := ((rgb.1 : ℝ) / 255) * 2 - 1
  let y := ((rgb.2.1 : ℝ) / 255) * 2 - 1
  let z := ((rgb.2.2 : ℝ) / 255) * 2 - 1
  let length := Real.sqrt (x * x + y * y + z * z)
  if length = 0 then (0, 0, 1)
  else (x / length, y / length, z / length)

/-- `MaskFeatures` from `src/lib/maskUtils.ts`. -/
structure MaskFeatures where
  id : ℕ
  centerX : ℝ
  centerY : ℝ
  avgColor : ℤ × ℤ × ℤ
  normalVector : ℝ × ℝ × ℝ
  area : ℕ
  aspectRatio : ℝ

/-- `extractMaskFeatures` from `src/lib/maskUtils.ts`.  When image data is
supplied the average colour samples every `sampleRate`-th member pixel
(at most ~100 samples); otherwise it falls back to mid-gray. -/
noncomputable def extractMaskFeatures (mask : SerializedMask) (_imageWidth : ℕ)
    (imageData : Option (ℕ → ℕ)) : MaskFeatures :=
  let centerX := ((mask.bounds.minX : ℝ) + (mask.bounds.maxX : ℝ)) / 2
  let centerY := ((mask.bounds.minY : ℝ) + (mask.bounds.maxY : ℝ)) / 2
  let width := (mask.bounds.maxX : ℝ) - (mask.bounds.minX : ℝ)
  let height := (mask.bounds.maxY : ℝ) - (mask.bounds.minY : ℝ)
  let aspectRatio := if height > 0 then width / height else 1
  let avgColor :=
    match imageData with
    | some data =>
        if 0 < mask.pixelIndices.length then
          let sampleRate := Nat.max 1 (mask.pixelIndices.length / 100)
          let sampleCount := (mask.pixelIndices.length + sampleRate - 1) / sampleRate
          let samplePositions := List.range' 0 sampleCount sampleRate
          let sums := samplePositions.foldl
            (fun (acc : ℕ × ℕ × ℕ) i =>
              let idx := (mask.pixelIndices.getD i 0) * 4
              (acc.1 + data idx, acc.2.1 + data (idx + 1), acc.2.2 + data (idx + 2)))
            (0, 0, 0)
          let samples := samplePositions.length
          (round ((sums.1 : ℝ) / samples),
           round ((sums.2.1 : ℝ) / samples),
           round ((sums.2.2 : ℝ) / samples))
        else ((128 : ℤ), (128 : ℤ), (128 : ℤ))
    | none => ((128 : ℤ), (128 : ℤ), (128 : ℤ))
  { id := mask.id
    centerX := centerX
    centerY := centerY
    avgColor := avgColor
    normalVector := normalizeVector mask.avgNormal
    area := mask.pixelCount
    aspectRatio := aspectRatio }

/-- The weight record taken by `calculateSimilarity`. -/
structure SimWeights where
  color : ℝ
  normal : ℝ
  size : ℝ
  proximity : ℝ

/-- The loose default weights of `calculateSimilarity`. -/
noncomputable def looseWeights : SimWeights :=
  ⟨0.35, 0.30, 0.15, 0.20⟩

/-- The strict weights used by `findSmartGroup`. -/
noncomputable def strictWeights : SimWeights :=
  ⟨0.45, 0.25, 0.15, 0.15⟩

/-- The colour-similarity term `1 - euclidean(rgbA, rgbB) / sqrt(3·255²)`
computed both in `calculateSimilarity` and inline in `findSmartGroup`. -/
noncomputable def colorSimOf (a b : ℤ × ℤ × ℤ) : ℝ :=
  let colorDist := Real.sqrt
    (((a.1 : ℝ) - (b.1 : ℝ)) ^ 2 + ((a.2.1 : ℝ) - (b.2.1 : ℝ)) ^ 2 +
      ((a.2.2 : ℝ) - (b.2.2 : ℝ)) ^ 2)
  let maxColorDist := Real.sqrt (3 * 255 * 255)
  1 - colorDist / maxColorDist

/-- `calculateSimilarity` from `src/lib/maskUtils.ts`: the four-factor
weighted similarity score between two mask feature vectors. -/
noncomputable def calculateSimilarity (a b : MaskFeatures)
    (imageWidth imageHeight : ℕ) (weights : SimWeights) : ℝ :=
  let colorSim := colorSimOf a.avgColor b.avgColor
  let normalDot :=
    a.normalVector.1 * b.normalVector.1 +
    a.normalVector.2.1 * b.normalVector.2.1 +
    a.normalVector.2.2 * b.normalVector.2.2
  let normalSim := (normalDot + 1) / 2
  let sizeRatio := (max (a.area : ℝ) (b.area : ℝ)) / max 1 (min (a.area : ℝ) (b.area : ℝ))
  let sizeSim := 1 / (1 + Real.logb 10 sizeRatio)
  let dx := a.centerX - b.centerX
  let dy := a.centerY - b.centerY
  let dist := Real.sqrt (dx * dx + dy * dy)
  let diagonal := Real.sqrt ((imageWidth : ℝ) * imageWidth + (imageHeight : ℝ) * imageHeight)
  let proximitySim := 1 - min 1 (dist / (diagonal * 0.3))
  weights.color * colorSim + weights.normal * normalSim +
    weights.size * sizeSim + weights.proximity * proximitySim

/-- One element of the `similarityScores` array built by `findSmartGroup`. -/
structure SimilarityEntry where
  mask : SerializedMask
  score : ℝ
  colorSim : ℝ

/-- The entry `findSmartGroup` records for one candidate mask: the inline
colour similarity against the seed and the strict-weight overall score. -/
noncomputable def smartEntry (seedFeatures : MaskFeatures) (width height : ℕ)
    (imageData : Option (ℕ → ℕ)) (m : SerializedMask) : SimilarityEntry :=
  let features := extractMaskFeatures m width imageData
  { mask := m
    colorSim := colorSimOf seedFeatures.avgColor features.avgColor
    score := calculateSimilarity seedFeatures features width height strictWeights }

/-- Stable insertion of an entry into a score-descending list: the entry is
placed before the first element whose score is not larger, which is the
order a stable descending sort (JS `sort` with `(a, b) => b.score - a.score`)
produces. -/
noncomputable def insertDesc (e : SimilarityEntry) :
    List SimilarityEntry → List SimilarityEntry
  | [] => [e]
  | x :: xs => if e.score < x.score then x :: insertDesc e xs else e :: x :: xs

/-- Stable descending sort by score, modelling
`similarityScores.sort((a, b) => b.score - a.score)`. -/
noncomputable def sortDesc (l : List SimilarityEntry) : List SimilarityEntry :=
  l.foldr insertDesc []

/-- One iteration of the elbow-detection loop in `findAdaptiveThreshold`:
the state carries `(maxPercentDrop, elbowIdx)` and is updated when the
drop from score `i-1` to score `i` is significant, larger than the best
drop so far, and starts above the minimum threshold. -/
noncomputable def elbowStep (sortedScores : List ℝ) (minThreshold : ℝ)
    (acc : ℝ × ℕ) (i : ℕ) : ℝ × ℕ :=
  let prev := sortedScores.getD (i - 1) 0
  let curr := sortedScores.getD i 0
  let percentDrop := if prev > 0 then (prev - curr) / prev else 0
  let absDrop := prev - curr
  let isSignificantDrop := percentDrop > 0.08 ∨ absDrop > 0.05
  if isSignificantDrop ∧ percentDrop > acc.1 ∧ prev > minThreshold
  then (percentDrop, i) else acc

/-- The tail of `findAdaptiveThreshold` after the elbow loop: cut at 0.98×
the pre-drop score when a clear elbow was found, else fall back to 0.92×
the top score, never below the minimum threshold. -/
noncomputable def elbowResult (sortedScores : List ℝ) (minThreshold : ℝ)
    (st : ℝ × ℕ) : ℝ :=
  if 0 < st.2 ∧ st.1 > 0.05 then
    max minThreshold (sortedScores.getD (st.2 - 1) 0 * 0.98)
  else
    max minThreshold (sortedScores.getD 0 0 * 0.92)

/-- `findAdaptiveThreshold` from `src/lib/maskUtils.ts`: elbow detection on
the sorted score list.  The `for` loop over `i = 1 .. min(length, 12) - 1`
is a fold of `elbowStep` carrying `(maxPercentDrop, elbowIdx)`, finished
by `elbowResult`. -/
noncomputable def findAdaptiveThreshold (sortedScores : List ℝ)
    (minThreshold : ℝ) : ℝ :=
  if sortedScores.length ≤ 1 then minThreshold
  else if sortedScores.length = 2 then
    max minThreshold (sortedScores.getD 1 0)
  else
    elbowResult sortedScores minThreshold
      ((List.range' 1 (min sortedScores.length 12 - 1)).foldl
        (elbowStep sortedScores minThreshold) ((0 : ℝ), (0 : ℕ)))

/-- The sorted entry list `findSmartGroup` works on. -/
noncomputable def smartSorted (seedMask : SerializedMask)
    (allMasks : List SerializedMask) (maskData : MaskData)
    (imageData : Option (ℕ → ℕ)) : List SimilarityEntry :=
  let seedFeatures := extractMaskFeatures seedMask maskData.width imageData
  sortDesc (allMasks.map
    (smartEntry seedFeatures maskData.width maskData.height imageData))

/-- The adaptive cutoff computed inside `findSmartGroup`: the elbow threshold
over the scores of the entries that survive the 0.88 colour gate. -/
noncomputable def adaptiveCut (seedMask : SerializedMask)
    (allMasks : List SerializedMask) (maskData : MaskData)
    (imageData : Option (ℕ → ℕ)) (similarityThreshold : ℝ) : ℝ :=
  let sorted := smartSorted seedMask allMasks maskData imageData
  let scores := (sorted.filter
      (fun s => decide (s.colorSim ≥ 0.88))).map SimilarityEntry.score
  findAdaptiveThreshold scores similarityThreshold

/-- The capped selection `findSmartGroup` builds before force-including the
seed: the sorted entries that pass both the overall-score and the colour
gates, truncated to at most 15 and projected back to masks. -/
noncomputable def smartFiltered (seedMask : SerializedMask)
    (allMasks : List SerializedMask) (maskData : MaskData)
    (imageData : Option (ℕ → ℕ)) (similarityThreshold : ℝ) :
    List SerializedMask :=
  let sorted := smartSorted seedMask allMasks maskData imageData
  let adaptiveThreshold :=
    adaptiveCut seedMask allMasks maskData imageData similarityThreshold
  let maxSelections := 15
  ((sorted.filter
      (fun s => decide (s.score ≥ adaptiveThreshold ∧ s.colorSim ≥ 0.88))).take
        maxSelections).map SimilarityEntry.mask

/-- `findSmartGroup` from `src/lib/maskUtils.ts`: score every mask against
the seed with the strict weights, sort descending, gate on colour
similarity ≥ 0.88 and the adaptive threshold, cap at 15 selections, and
force-include (`unshift`) the seed mask if its id is missing. -/
noncomputable def findSmartGroup (seedMask : SerializedMask)
    (allMasks : List SerializedMask) (maskData : MaskData)
    (imageData : Option (ℕ → ℕ)) (similarityThreshold : ℝ) :
    List SerializedMask :=
  let result := smartFiltered seedMask allMasks maskData imageData
    similarityThreshold
  if (result.find? (fun m => m.id == seedMask.id)).isNone
  then seedMask :: result
  else result

end MaskUtils

namespace MaskGenerator

/-- `EDGE_THRESHOLD` from `src/lib/maskGenerator.ts`. -/
def EDGE_THRESHOLD : ℕ := 200

/-- `MIN_MASK_SIZE` from `src/lib/maskGenerator.ts`. -/
def MIN_MASK_SIZE : ℕ := 100

/-- `MAX_FLOOD_FILL_STACK` from `src/lib/maskGenerator.ts`. -/
def MAX_FLOOD_FILL_STACK : ℕ := 5000000

/-- `ImageDataLike` from `src/lib/maskGenerator.ts`: a raw RGBA byte buffer
(`Uint8ClampedArray`, modelled as a function from byte offset to byte)
with its dimensions. -/
structure ImageDataLike where
  data : ℕ → ℕ
  width : ℕ
  height : ℕ

/-- `isEdgePixel` from `src/lib/maskGenerator.ts`: the pixel is an edge iff
the grayscale mean `(r + g + b) / 3` is below `EDGE_THRESHOLD`.  Over the
byte values this float comparison is exactly `r + g + b < 3 * EDGE_THRESHOLD`. -/
def isEdgePixel (imageData : ImageDataLike) (x y : ℕ) : Bool :=
  let idx := (y * imageData.width + x) * 4
  decide (imageData.data idx + imageData.data (idx + 1) + imageData.data (idx + 2)
    < 3 * EDGE_THRESHOLD)

/-- `getPixelRGB` from `src/lib/maskGenerator.ts`. -/
def getPixelRGB (imageData : ImageDataLike) (x y : ℕ) : ℕ × ℕ × ℕ :=
  let idx := (y * imageData.width + x) * 4
  (imageData.data idx, imageData.data (idx + 1), imageData.data (idx + 2))

/-- The `while` loop of the iterative `floodFill` in `src/lib/maskGenerator.ts`.
State: the visited bitmap (as the set of visited pixel addresses), the
explicit coordinate stack (head = top; a JS `push` of `x+1, x-1, y+1, y-1`
makes `(x, y-1)` the next pop), and the collected pixel list.  The loop
runs while the stack is nonempty and fewer than `MAX_FLOOD_FILL_STACK`
pixels have been collected; each iteration pops one coordinate, skips it
when out of bounds, already visited, or an edge, and otherwise marks it
visited, appends it, and pushes its four neighbours. -/
def floodFillLoop (edge : ImageDataLike) :
    Finset ℕ → List (ℤ × ℤ) → List ℕ → List ℕ × Finset ℕ
  | visited, [], pixels => (pixels, visited)
  | visited, (x, y) :: rest, pixels =>
    if MAX_FLOOD_FILL_STACK ≤ pixels.length then (pixels, visited)
    else if hb : x < 0 ∨ (edge.width : ℤ) ≤ x ∨ y < 0 ∨ (edge.height : ℤ) ≤ y then
      floodFillLoop edge visited rest pixels
    else if hv : y.toNat * edge.width + x.toNat ∈ visited then
      floodFillLoop edge visited rest pixels
    else if isEdgePixel edge x.toNat y.toNat then
      floodFillLoop edge visited rest pixels
    else
      floodFillLoop edge (insert (y.toNat * edge.width + x.toNat) visited)
        ((x, y - 1) :: (x, y + 1) :: (x - 1, y) :: (x + 1, y) :: rest)
        (pixels ++ [y.toNat * edge.width + x.toNat])
termination_by visited stack pixels =>
  5 * ((Finset.range (edge.width * edge.height)) \ visited).card + stack.length
decreasing_by
  · simp only [List.length_cons]; omega
  · simp only [List.length_cons]; omega
  · simp only [List.length_cons]; omega
  · push_neg at hb
    obtain ⟨hx0, hxw, hy0, hyh⟩ := hb
    have hxlt : x.toNat < edge.width := by omega
    have hylt : y.toNat < edge.height := by omega
    have hidx : y.toNat * edge.width + x.toNat ∈
        Finset.range (edge.width * edge.height) \ visited := by
      refine Finset.mem_sdiff.2 ⟨Finset.mem_range.2 ?_, hv⟩
      calc y.toNat * edge.width + x.toNat
          < y.toNat * edge.width + edge.width := by omega
        _ = (y.toNat + 1) * edge.width := by ring
        _ ≤ edge.height * edge.width := Nat.mul_le_mul_right _ (by omega)
        _ = edge.width * edge.height := Nat.mul_comm _ _
    have hcard : ((Finset.range (edge.width * edge.height)) \
        insert (y.toNat * edge.width + x.toNat) visited).card =
        ((Finset.range (edge.width * edge.height)) \ visited).card - 1 := by
      rw [Finset.sdiff_insert, Finset.card_erase_of_mem hidx]
    have hpos : 0 < ((Finset.range (edge.width * edge.height)) \ visited).card :=
      Finset.card_pos.2 ⟨_, hidx⟩
    simp only [List.length_cons, hcard]
    omega

/-- `floodFill` from `src/lib/maskGenerator.ts`: run the loop from a
singleton stack holding the seed, returning the collected pixels and the
updated visited set (the source mutates the caller's `visited` array). -/
def floodFill (edgeData : ImageDataLike) (visited : Finset ℕ)
    (startX startY : ℕ) : List ℕ × Finset ℕ :=
  floodFillLoop edgeData visited [((startX : ℤ), (startY : ℤ))] []

/-- Minimum of a list of naturals, folded from its head.  The source folds
`Math.min` from `Infinity`; on the nonempty pixel lists `generateMasks`
feeds in, that equals the fold from the first element (the empty case,
where the source would keep `Infinity`, is never reached because regions
smaller than `MIN_MASK_SIZE` — in particular empty ones — are discarded
before the bounding box is computed). -/
def listMinN : List ℕ → ℕ
  | [] => 0
  | x :: xs => xs.foldl Nat.min x

/-- Maximum of a list of naturals, folded from its head; see `listMinN`. -/
def listMaxN : List ℕ → ℕ
  | [] => 0
  | x :: xs => xs.foldl Nat.max x

/-- `computeBoundingBox` from `src/lib/maskGenerator.ts`: min/max of the
member pixels' x and y coordinates. -/
def computeBoundingBox (pixels : List ℕ) (width : ℕ) : BoundingBox :=
  { minX := listMinN (pixels.map (fun idx => idx % width))
    minY := listMinN (pixels.map (fun idx => idx / width))
    maxX := listMaxN (pixels.map (fun idx => idx % width))
    maxY := listMaxN (pixels.map (fun idx => idx / width)) }

/-- `computeAverageNormal` from `src/lib/maskGenerator.ts`: per-channel sum
over members divided by the member count, rounded to nearest integer. -/
noncomputable def computeAverageNormal (pixels : List ℕ)
    (normalData : ImageDataLike) (width : ℕ) : ℤ × ℤ × ℤ :=
  let sums := pixels.foldl
    (fun (acc : ℕ × ℕ × ℕ) idx =>
      let p := getPixelRGB normalData (idx % width) (idx / width)
      (acc.1 + p.1, acc.2.1 + p.2.1, acc.2.2 + p.2.2))
    (0, 0, 0)
  let count := pixels.length
  (round ((sums.1 : ℝ) / count),
   round ((sums.2.1 : ℝ) / count),
   round ((sums.2.2 : ℝ) / count))

/-- The mutable state of the scan loop in `generateMasks`: the visited
bitmap, the masks emitted so far, and the next mask id. -/
structure GenState where
  visited : Finset ℕ
  masks : List SerializedMask
  maskId : ℕ

/-- One iteration of the row-major scan in `generateMasks` at pixel address
`idx` (so `x = idx % width`, `y = idx / width`): skip visited pixels,
otherwise flood fill from the seed, discard runs smaller than
`MIN_MASK_SIZE` as noise (their pixels stay visited), and otherwise emit a
mask with the next sequential id. -/
noncomputable def generateStep (edgeData normalData : ImageDataLike)
    (st : GenState) (idx : ℕ) : GenState :=
  if idx ∈ st.visited then st
  else
    let r := floodFill edgeData st.visited (idx % edgeData.width) (idx / edgeData.width)
    if r.1.length < MIN_MASK_SIZE then { st with visited := r.2 }
    else
      { visited := r.2
        masks := st.masks ++
          [{ id := st.maskId
             pixelIndices := r.1
             bounds := computeBoundingBox r.1 edgeData.width
             avgNormal := computeAverageNormal r.1 normalData edgeData.width
             pixelCount := r.1.length
             displayColor := ColorUtils.generateDistinctColor st.maskId }]
        maskId := st.maskId + 1 }

/-- The visited bitmap after the up-front pass of `generateMasks` that marks
every edge pixel visited. -/
def initialVisited (edgeData : ImageDataLike) : Finset ℕ :=
  (Finset.range (edgeData.width * edgeData.height)).filter
    (fun idx => isEdgePixel edgeData (idx % edgeData.width) (idx / edgeData.width))

/-- `generateMasks` from `src/lib/maskGenerator.ts`: mark edge pixels
visited, then scan all pixel addresses in row-major order, flood filling
from each unvisited seed. -/
noncomputable def generateMasks (edgeData normalData : ImageDataLike) :
    List SerializedMask :=
  ((List.range (edgeData.width * edgeData.height)).foldl
    (generateStep edgeData normalData)
    ⟨initialVisited edgeData, [], 0⟩).masks

/-- `normalizeVector` from `src/lib/maskGenerator.ts` (a verbatim duplicate
of the helper in `src/lib/maskUtils.ts`). -/
noncomputable def normalizeVector (rgb : ℤ × ℤ × ℤ) : ℝ × ℝ × ℝ :=
  let x := ((rgb.1 : ℝ) / 255) * 2 - 1
  let y := ((rgb.2.1 : ℝ) / 255) * 2 - 1
  let z := ((rgb.2.2 : ℝ) / 255) * 2 - 1
  let length := Real.sqrt (x * x + y * y + z * z)
  if length = 0 then (0, 0, 1)
  else (x / length, y / length, z / length)

/-- The inner `j` loop of `groupMasksByNormal`: walk the masks after the
leader, adding every still-unassigned mask whose unit normal lies within
the cosine threshold of the leader's. -/
noncomputable def groupInner (n1 : ℝ × ℝ × ℝ) (cosThreshold : ℝ)
    (rest : List SerializedMask) (start : List ℕ × Finset ℕ) :
    List ℕ × Finset ℕ :=
  rest.foldl
    (fun acc mj =>
      if mj.id ∈ acc.2 then acc
      else
        let n2 := normalizeVector mj.avgNormal
        let dot := n1.1 * n2.1 + n1.2.1 * n2.2.1 + n1.2.2 * n2.2.2
        if dot ≥ cosThreshold then (acc.1 ++ [mj.id], insert mj.id acc.2)
        else acc)
    start

/-- The outer `i` loop of `groupMasksByNormal`.  The JS `Map` accumulates
`leaderId -> group` pairs in insertion order, modelled as an association
list. -/
noncomputable def groupOuter (cosThreshold : ℝ) :
    List SerializedMask → Finset ℕ → List (ℕ × List ℕ) → List (ℕ × List ℕ)
  | [], _, groups => groups
  | m :: rest, assigned, groups =>
    if m.id ∈ assigned then groupOuter cosThreshold rest assigned groups
    else
      let n1 := normalizeVector m.avgNormal
      let r := groupInner n1 cosThreshold rest ([m.id], insert m.id assigned)
      groupOuter cosThreshold rest r.2 (groups ++ [(m.id, r.1)])

/-- `groupMasksByNormal` from `src/lib/maskGenerator.ts`: greedy
order-dependent grouping of masks by similar unit normals. -/
noncomputable def groupMasksByNormal (masks : List SerializedMask)
    (angleTolerance : ℝ) : List (ℕ × List ℕ) :=
  let cosThreshold := Real.cos (angleTolerance * Real.pi / 180)
  groupOuter cosThreshold masks ∅ []

end MaskGenerator

/-! ### Sample inputs used by witnesses and counterexamples -/

/-- A tiny 2×1 `MaskData` with one single-pixel mask. -/
def sampleMaskData : MaskData :=
  { imageSetId := "sample"
    width := 2
    height := 1
    masks := [{ id := 0
                pixelIndices := [0]
                bounds := ⟨0, 0, 0, 0⟩
                avgNormal := (128, 128, 128)
                pixelCount := 1
                displayColor := "" }]
    generatedAt := "" }

/-- A family of masks identical in every feature except their id: centred
at the origin, mid-gray normals, 100 pixels.  Sixteen of them make every
pairwise similarity score equal. -/
def mkSmartMask (i : ℕ) : SerializedMask :=
  { id := i
    pixelIndices := []
    bounds := ⟨0, 0, 0, 0⟩
    avgNormal := (128, 128, 128)
    pixelCount := 100
    displayColor := "" }

/-- Sixteen feature-identical masks with ids `0..15`. -/
def smartMasks16 : List SerializedMask :=
  (List.range 16).map mkSmartMask

/-- A 100×100 `MaskData` holding the sixteen feature-identical masks. -/
def smartMaskData : MaskData :=
  { imageSetId := "smart"
    width := 100
    height := 100
    masks := smartMasks16
    generatedAt := "" }

/-- An all-white (edge-free) one-row image one pixel wider than the flood
fill's `MAX_FLOOD_FILL_STACK` safety ceiling. -/
def wideImage : MaskGenerator.ImageDataLike :=
  { data := fun _ => 255
    width := 5000001
    height := 1 }

/-- A zero-area image buffer. -/
def emptyImage : MaskGenerator.ImageDataLike :=
  { data := fun _ => 255
    width := 0
    height := 0 }

/-- The flood-fill stack shape reached on `wideImage` immediately after the
loop visits pixel `x` of the single row: the four pushed neighbours of
`(x, 0)`, with the next pop on top. -/
def marchStack (x : ℕ) : List (ℤ × ℤ) :=
  [((x : ℤ), -1), ((x : ℤ), 1), ((x : ℤ) - 1, 0), ((x : ℤ) + 1, 0)]

/-! ## Helper lemmas -/

namespace MaskUtils

/-- Value of the per-mask write loop of `buildPixelLookup` at a query pixel:
the mask id if the query pixel occurs in the list (in range), otherwise
the previous lookup value. -/
theorem maskFold_apply (T : ℕ) (id : ℤ) (l : List ℕ) (lk : ℕ → ℤ) (q : ℕ) :
    (l.foldl (fun lk' p => fun q' => if q' = p ∧ p < T then id else lk' q') lk) q
      = if q ∈ l ∧ q < T then id else lk q := by
  induction l generalizing lk with
  | nil => simp
  | cons p t ih =>
      simp only [List.foldl_cons, ih, List.mem_cons]
      by_cases hqT : q < T
      · by_cases hqt : q ∈ t
        · simp [hqt, hqT]
        · by_cases hqp : q = p
          · subst hqp; simp [hqt, hqT]
          · simp [hqp, hqt, hqT]
      · by_cases hqp : q = p
        · subst hqp; simp [hqT]
        · simp [hqp, hqT]

/-- If no mask in the list contains the query pixel, the fold of
`buildPixelLookup` leaves the lookup value unchanged. -/
theorem masksFold_apply_not_mem (T : ℕ) (masks : List SerializedMask)
    (lk : ℕ → ℤ) (q : ℕ) (h : ∀ m ∈ masks, q ∉ m.pixelIndices) :
    (masks.foldl
      (fun lookup mask =>
        mask.pixelIndices.foldl
          (fun lk' p => fun q' => if q' = p ∧ p < T then (mask.id : ℤ) else lk' q')
          lookup)
      lk) q = lk q := by
  induction masks generalizing lk with
  | nil => rfl
  | cons m t ih =>
      simp only [List.foldl_cons]
      rw [ih _ (fun m' hm' => h m' (List.mem_cons_of_mem _ hm')),
        maskFold_apply]
      simp [h m (List.mem_cons_self _ _)]

/-- If the masks are pairwise disjoint and the query pixel belongs to one of
them (in range), the fold of `buildPixelLookup` stores that mask's id. -/
theorem masksFold_apply_mem (T : ℕ) (masks : List SerializedMask)
    (lk : ℕ → ℤ) (q : ℕ) (m : SerializedMask)
    (hdisj : masks.Pairwise (fun m1 m2 => ∀ p, p ∈ m1.pixelIndices → p ∉ m2.pixelIndices))
    (hm : m ∈ masks) (hq : q ∈ m.pixelIndices) (hqT : q < T) :
    (masks.foldl
      (fun lookup mask =>
        mask.pixelIndices.foldl
          (fun lk' p => fun q' => if q' = p ∧ p < T then (mask.id : ℤ) else lk' q')
          lookup)
      lk) q = (m.id : ℤ) := by
  induction masks generalizing lk with
  | nil => cases hm
  | cons m₀ t ih =>
      rw [List.pairwise_cons] at hdisj
      rcases List.mem_cons.1 hm with hm₀ | hmt
      · subst hm₀
        simp only [List.foldl_cons]
        rw [masksFold_apply_not_mem T t _ q
          (fun m' hm' => hdisj.1 m' hm' q hq), maskFold_apply]
        simp [hq, hqT]
      · simp only [List.foldl_cons]
        exact ih _ hdisj.2 hmt

/-- Membership in a stable descending insertion. -/
theorem insertDesc_mem (x : SimilarityEntry) (l : List SimilarityEntry)
    (e : SimilarityEntry) : e ∈ insertDesc x l ↔ e = x ∨ e ∈ l := by
  induction l with
  | nil => simp [insertDesc]
  | cons y ys ih =>
      rw [insertDesc]
      by_cases h : x.score < y.score
      · rw [if_pos h]
        simp only [List.mem_cons, ih]
        tauto
      · rw [if_neg h]
        simp only [List.mem_cons]

/-- The stable descending sort keeps exactly the input entries. -/
theorem sortDesc_mem (l : List SimilarityEntry) (e : SimilarityEntry) :
    e ∈ sortDesc l ↔ e ∈ l := by
  induction l with
  | nil => simp [sortDesc]
  | cons x t ih =>
      have hstep : sortDesc (x :: t) = insertDesc x (sortDesc t) := rfl
      rw [hstep, insertDesc_mem, ih, List.mem_cons]

/-- Every branch of `findAdaptiveThreshold` returns at least the caller's
minimum threshold. -/
theorem findAdaptiveThreshold_ge (sortedScores : List ℝ) (minThreshold : ℝ) :
    minThreshold ≤ findAdaptiveThreshold sortedScores minThreshold := by
  rw [findAdaptiveThreshold]
  by_cases h1 : sortedScores.length ≤ 1
  · rw [if_pos h1]
  · rw [if_neg h1]
    by_cases h2 : sortedScores.length = 2
    · rw [if_pos h2]
      exact le_max_left _ _
    · rw [if_neg h2, elbowResult]
      split <;> exact le_max_left _ _

/-- The adaptive cutoff of `findSmartGroup` is at least the caller's
minimum threshold. -/
theorem adaptiveCut_ge (seedMask : SerializedMask)
    (allMasks : List SerializedMask) (maskData : MaskData)
    (imageData : Option (ℕ → ℕ)) (similarityThreshold : ℝ) :
    similarityThreshold ≤
      adaptiveCut seedMask allMasks maskData imageData similarityThreshold := by
  rw [adaptiveCut]
  exact findAdaptiveThreshold_ge _ _

/-- The capped pre-seed selection holds at most 15 masks. -/
theorem smartFiltered_length_le (seedMask : SerializedMask)
    (allMasks : List SerializedMask) (maskData : MaskData)
    (imageData : Option (ℕ → ℕ)) (similarityThreshold : ℝ) :
    (smartFiltered seedMask allMasks maskData imageData
      similarityThreshold).length ≤ 15 := by
  rw [smartFiltered]
  simp only [List.length_map]
  exact List.length_take_le _ _

/-- Every mask in the capped pre-seed selection passed both gates: colour
similarity to the seed at least 0.88, and overall score at least the
adaptive cutoff. -/
theorem smartFiltered_mem_spec (seedMask : SerializedMask)
    (allMasks : List SerializedMask) (maskData : MaskData)
    (imageData : Option (ℕ → ℕ)) (similarityThreshold : ℝ)
    (m : SerializedMask)
    (hm : m ∈ smartFiltered seedMask allMasks maskData imageData
      similarityThreshold) :
    (smartEntry (extractMaskFeatures seedMask maskData.width imageData)
        maskData.width maskData.height imageData m).colorSim ≥ 0.88 ∧
    (smartEntry (extractMaskFeatures seedMask maskData.width imageData)
        maskData.width maskData.height imageData m).score ≥
      adaptiveCut seedMask allMasks maskData imageData similarityThreshold := by
  rw [smartFiltered] at hm
  obtain ⟨ent, hent, hmask⟩ := List.mem_map.1 hm
  have h1 := List.mem_of_mem_take hent
  rw [List.mem_filter] at h1
  obtain ⟨hsorted, hpred⟩ := h1
  have hdec := of_decide_eq_true hpred
  have hsorted' : ent ∈ allMasks.map
      (smartEntry (extractMaskFeatures seedMask maskData.width imageData)
        maskData.width maskData.height imageData) := by
    have hss : smartSorted seedMask allMasks maskData imageData =
        sortDesc (allMasks.map
          (smartEntry (extractMaskFeatures seedMask maskData.width imageData)
            maskData.width maskData.height imageData)) := rfl
    rw [hss] at hsorted
    exact (sortDesc_mem _ _).1 hsorted
  obtain ⟨m', _, hent_eq⟩ := List.mem_map.1 hsorted'
  subst hent_eq
  have hmask' : (smartEntry (extractMaskFeatures seedMask maskData.width imageData)
      maskData.width maskData.height imageData m').mask = m' := rfl
  rw [hmask'] at hmask
  subst hmask
  exact ⟨hdec.2, hdec.1⟩

/-- Inserting an entry whose score is not beaten by any list element puts
it at the head. -/
theorem insertDesc_of_not_lt (x : SimilarityEntry) (l : List SimilarityEntry)
    (h : ∀ e ∈ l, ¬(x.score < e.score)) : insertDesc x l = x :: l := by
  cases l with
  | nil => rfl
  | cons y ys => rw [insertDesc, if_neg (h y (List.mem_cons_self _ _))]

/-- A list whose entries all score exactly 1 is already stably sorted. -/
theorem sortDesc_const_one (l : List SimilarityEntry)
    (h : ∀ e ∈ l, e.score = 1) : sortDesc l = l := by
  induction l with
  | nil => rfl
  | cons x t ih =>
      have hstep : sortDesc (x :: t) = insertDesc x (sortDesc t) := rfl
      rw [hstep, ih (fun e he => h e (List.mem_cons_of_mem _ he))]
      refine insertDesc_of_not_lt x t ?_
      intro e he
      rw [h x (List.mem_cons_self _ _), h e (List.mem_cons_of_mem _ he)]
      exact lt_irrefl 1

/-- Reads within range of a constant 16-element score list. -/
theorem getD_replicate16 (j : ℕ) (h : j < 16) :
    (List.replicate 16 (1 : ℝ)).getD j 0 = 1 := by
  rw [List.getD_eq_getElem?_getD, List.getElem?_replicate, if_pos h]
  rfl

/-- On sixteen equal scores the elbow step never fires. -/
theorem elbowStep_replicate16 (acc : ℝ × ℕ) (i : ℕ) (h1 : 1 ≤ i) (h16 : i < 16)
    (hacc : acc.1 = 0) :
    elbowStep (List.replicate 16 (1 : ℝ)) 0.75 acc i = acc := by
  rw [elbowStep]
  rw [getD_replicate16 (i - 1) (by omega), getD_replicate16 i h16]
  rw [if_pos (by norm_num : (1 : ℝ) > 0)]
  refine if_neg ?_
  rintro ⟨-, hdrop, -⟩
  rw [hacc] at hdrop
  norm_num at hdrop

/-- The elbow loop over sixteen equal scores stays at `(0, 0)`. -/
theorem foldl_elbowStep_replicate16 :
    ∀ (L : List ℕ), (∀ i ∈ L, 1 ≤ i ∧ i < 16) →
    L.foldl (elbowStep (List.replicate 16 (1 : ℝ)) 0.75) ((0 : ℝ), (0 : ℕ)) =
      ((0 : ℝ), (0 : ℕ)) := by
  intro L
  induction L with
  | nil => intro _; rfl
  | cons i t ih =>
      intro h
      rw [List.foldl_cons, elbowStep_replicate16 _ i
        (h i (List.mem_cons_self _ _)).1 (h i (List.mem_cons_self _ _)).2 rfl]
      exact ih (fun j hj => h j (List.mem_cons_of_mem _ hj))

/-- The adaptive threshold over sixteen equal scores of 1 at minimum
threshold 0.75 falls back to 0.92 × the top score = 0.92. -/
theorem findAdaptiveThreshold_replicate16 :
    findAdaptiveThreshold (List.replicate 16 (1 : ℝ)) 0.75 = 0.92 := by
  rw [findAdaptiveThreshold]
  rw [if_neg (by simp), if_neg (by simp)]
  have hlen : min (List.replicate 16 (1 : ℝ)).length 12 - 1 = 11 := by
    simp
  rw [hlen]
  rw [foldl_elbowStep_replicate16 (List.range' 1 11)
    (by intro i hi; have := List.mem_range'_1.1 hi; omega)]
  rw [elbowResult, if_neg (by norm_num)]
  rw [getD_replicate16 0 (by norm_num)]
  rw [max_eq_right (by norm_num : (0.75 : ℝ) ≤ 1 * 0.92)]
  norm_num

end MaskUtils

namespace ColorUtils

/-- A convex step between `p` and `q` stays between `p` and `q`. -/
theorem lerp_mem (p q w : ℝ) (hpq : p ≤ q) (hw0 : 0 ≤ w) (hw1 : w ≤ 1) :
    p ≤ p + (q - p) * w ∧ p + (q - p) * w ≤ q := by
  constructor
  · nlinarith [mul_nonneg (sub_nonneg.2 hpq) hw0]
  · nlinarith [mul_nonneg (sub_nonneg.2 hpq) (by linarith : (0 : ℝ) ≤ 1 - w)]

/-- The hue wrap lands in `[0, 1]` for parameters in `[-1/3, 4/3)`. -/
theorem hueWrap_mem (t : ℝ) (ht0 : -(1/3) ≤ t) (ht1 : t < 4/3) :
    0 ≤ hueWrap t ∧ hueWrap t ≤ 1 := by
  simp only [hueWrap]
  split_ifs <;> constructor <;> linarith

/-- `hue2rgb` stays between `p` and `q` whenever `p ≤ q` and the hue
parameter lies in the range `[-1/3, 4/3)` produced by `hslToRgb`. -/
theorem hue2rgb_mem (p q t : ℝ) (hpq : p ≤ q) (ht0 : -(1/3) ≤ t)
    (ht1 : t < 4/3) : p ≤ hue2rgb p q t ∧ hue2rgb p q t ≤ q := by
  obtain ⟨hw0, hw1⟩ := hueWrap_mem t ht0 ht1
  simp only [hue2rgb]
  split_ifs with c3 c4 c5
  · constructor <;>
      linarith [lerp_mem p q (6 * hueWrap t) hpq (by linarith) (by linarith)]
  · exact ⟨hpq, le_refl q⟩
  · constructor <;>
      linarith [lerp_mem p q ((2/3 - hueWrap t) * 6) hpq (by linarith)
        (by linarith)]
  · exact ⟨le_refl p, hpq⟩

/-- Rounding a channel value in `[0, 1]` scaled by 255 lands in `[0, 255]`. -/
theorem round_mem_255 (c : ℝ) (h0 : 0 ≤ c) (h1 : c ≤ 1) :
    0 ≤ round (c * 255) ∧ round (c * 255) ≤ 255 := by
  rw [round_eq]
  constructor
  · rw [Int.le_floor]
    push_cast
    linarith
  · have hlt : ⌊c * 255 + 1 / 2⌋ < 256 := by
      rw [Int.floor_lt]
      push_cast
      linarith
    omega

/-- Every channel `hslToRgb` returns on in-range HSL input is in `[0, 255]`. -/
theorem hslToRgb_mem (h s l : ℝ) (hh0 : 0 ≤ h) (hh1 : h < 360)
    (hs0 : 0 ≤ s) (hs1 : s ≤ 1) (hl0 : 0 ≤ l) (hl1 : l ≤ 1) :
    (0 ≤ (hslToRgb h s l).1 ∧ (hslToRgb h s l).1 ≤ 255) ∧
    (0 ≤ (hslToRgb h s l).2.1 ∧ (hslToRgb h s l).2.1 ≤ 255) ∧
    (0 ≤ (hslToRgb h s l).2.2 ∧ (hslToRgb h s l).2.2 ≤ 255) := by
  have hd0 : 0 ≤ h / 360 := div_nonneg hh0 (by norm_num)
  have hd1 : h / 360 < 1 := (div_lt_one (by norm_num)).2 (by linarith)
  simp only [hslToRgb]
  split_ifs with hs hl
  · exact ⟨round_mem_255 l hl0 hl1, round_mem_255 l hl0 hl1,
      round_mem_255 l hl0 hl1⟩
  · have hP0 : 0 ≤ 2 * l - l * (1 + s) := by nlinarith
    have hPQ : 2 * l - l * (1 + s) ≤ l * (1 + s) := by nlinarith
    have hQ1 : l * (1 + s) ≤ 1 := by nlinarith
    refine ⟨?_, ?_, ?_⟩
    · obtain ⟨ha, hb⟩ := hue2rgb_mem (2 * l - l * (1 + s)) (l * (1 + s))
        (h / 360 + 1/3) hPQ (by linarith) (by linarith)
      exact round_mem_255 _ (by linarith) (by linarith)
    · obtain ⟨ha, hb⟩ := hue2rgb_mem (2 * l - l * (1 + s)) (l * (1 + s))
        (h / 360) hPQ (by linarith) (by linarith)
      exact round_mem_255 _ (by linarith) (by linarith)
    · obtain ⟨ha, hb⟩ := hue2rgb_mem (2 * l - l * (1 + s)) (l * (1 + s))
        (h / 360 - 1/3) hPQ (by linarith) (by linarith)
      exact round_mem_255 _ (by linarith) (by linarith)
  · have hP0 : 0 ≤ 2 * l - (l + s - l * s) := by nlinarith
    have hPQ : 2 * l - (l + s - l * s) ≤ l + s - l * s := by nlinarith
    have hQ1 : l + s - l * s ≤ 1 := by nlinarith
    refine ⟨?_, ?_, ?_⟩
    · obtain ⟨ha, hb⟩ := hue2rgb_mem (2 * l - (l + s - l * s)) (l + s - l * s)
        (h / 360 + 1/3) hPQ (by linarith) (by linarith)
      exact round_mem_255 _ (by linarith) (by linarith)
    · obtain ⟨ha, hb⟩ := hue2rgb_mem (2 * l - (l + s - l * s)) (l + s - l * s)
        (h / 360) hPQ (by linarith) (by linarith)
      exact round_mem_255 _ (by linarith) (by linarith)
    · obtain ⟨ha, hb⟩ := hue2rgb_mem (2 * l - (l + s - l * s)) (l + s - l * s)
        (h / 360 - 1/3) hPQ (by linarith) (by linarith)
      exact round_mem_255 _ (by linarith) (by linarith)

/-- `rgbToHsl` on channels in `[0, 255]` returns a hue in `[0, 360)` and
saturation and lightness in `[0, 1]`. -/
theorem rgbToHsl_mem (r g b : ℝ) (hr0 : 0 ≤ r) (hr1 : r ≤ 255) (hg0 : 0 ≤ g)
    (hg1 : g ≤ 255) (hb0 : 0 ≤ b) (hb1 : b ≤ 255) :
    (0 ≤ (rgbToHsl r g b).h ∧ (rgbToHsl r g b).h < 360) ∧
    (0 ≤ (rgbToHsl r g b).s ∧ (rgbToHsl r g b).s ≤ 1) ∧
    (0 ≤ (rgbToHsl r g b).l ∧ (rgbToHsl r g b).l ≤ 1) := by
  simp only [rgbToHsl]
  set r' := r / 255 with hr'
  set g' := g / 255 with hg'
  set b' := b / 255 with hb'
  set mx := max r' (max g' b') with hmx
  set mn := min r' (min g' b') with hmn
  have hr'0 : 0 ≤ r' := by rw [hr']; positivity
  have hg'0 : 0 ≤ g' := by rw [hg']; positivity
  have hb'0 : 0 ≤ b' := by rw [hb']; positivity
  have hr'1 : r' ≤ 1 := by rw [hr', div_le_one (by norm_num : (0:ℝ) < 255)]; linarith
  have hg'1 : g' ≤ 1 := by rw [hg', div_le_one (by norm_num : (0:ℝ) < 255)]; linarith
  have hb'1 : b' ≤ 1 := by rw [hb', div_le_one (by norm_num : (0:ℝ) < 255)]; linarith
  have hmn0 : 0 ≤ mn := by rw [hmn]; exact le_min hr'0 (le_min hg'0 hb'0)
  have hmx1 : mx ≤ 1 := by rw [hmx]; exact max_le hr'1 (max_le hg'1 hb'1)
  have hmnr : mn ≤ r' := by rw [hmn]; exact min_le_left _ _
  have hmng : mn ≤ g' := by
    rw [hmn]; exact le_trans (min_le_right _ _) (min_le_left _ _)
  have hmnb : mn ≤ b' := by
    rw [hmn]; exact le_trans (min_le_right _ _) (min_le_right _ _)
  have hrmx : r' ≤ mx := by rw [hmx]; exact le_max_left _ _
  have hgmx : g' ≤ mx := by
    rw [hmx]; exact le_trans (le_max_left _ _) (le_max_right _ _)
  have hbmx : b' ≤ mx := by
    rw [hmx]; exact le_trans (le_max_right _ _) (le_max_right _ _)
  have hmnmx : mn ≤ mx := le_trans hmnr hrmx
  by_cases heq : mx = mn
  · rw [if_pos heq]
    dsimp only
    refine ⟨⟨le_refl 0, by norm_num⟩, ⟨le_refl 0, by norm_num⟩,
      ⟨by linarith, by linarith⟩⟩
  · rw [if_neg heq]
    have hd : 0 < mx - mn := by
      have : mn < mx := lt_of_le_of_ne hmnmx (fun h => heq h.symm)
      linarith
    dsimp only
    have hub : ∀ u v : ℝ, mn ≤ u → u ≤ mx → mn ≤ v → v ≤ mx →
        -1 ≤ (u - v) / (mx - mn) ∧ (u - v) / (mx - mn) ≤ 1 := by
      intro u v h1 h2 h3 h4
      constructor
      · rw [le_div_iff hd]; linarith
      · rw [div_le_one hd]; linarith
    refine ⟨?_, ?_, ⟨by linarith, by linarith⟩⟩
    · split_ifs with c1 c2 c3
      · obtain ⟨hu0, hu1⟩ := hub g' b' hmng hgmx hmnb hbmx
        have hneg : (g' - b') / (mx - mn) < 0 :=
          div_neg_of_neg_of_pos (by linarith) hd
        constructor <;> linarith
      · obtain ⟨hu0, hu1⟩ := hub g' b' hmng hgmx hmnb hbmx
        have hpos : 0 ≤ (g' - b') / (mx - mn) :=
          div_nonneg (by linarith) hd.le
        constructor <;> linarith
      · obtain ⟨hu0, hu1⟩ := hub b' r' hmnb hbmx hmnr hrmx
        constructor <;> linarith
      · obtain ⟨hu0, hu1⟩ := hub r' g' hmnr hrmx hmng hgmx
        constructor <;> linarith
    · split_ifs with cl
      · have hden : 0 < 2 - mx - mn := by linarith
        constructor
        · exact div_nonneg hd.le hden.le
        · rw [div_le_one hden]; linarith
      · have hden : 0 < mx + mn := by
          rcases lt_or_eq_of_le hmn0 with h | h
          · linarith
          · have : mn < mx := lt_of_le_of_ne hmnmx (fun hh => heq hh.symm)
            linarith
        constructor
        · exact div_nonneg hd.le hden.le
        · rw [div_le_one hden]; linarith

/-- The hue wrap is the identity on `[0, 1]`. -/
theorem hueWrap_eval_id (t : ℝ) (h0 : 0 ≤ t) (h1 : t ≤ 1) : hueWrap t = t := by
  simp only [hueWrap]
  rw [if_neg (not_lt.2 h0), if_neg (not_lt.2 h1)]

/-- The hue wrap adds 1 to negative parameters. -/
theorem hueWrap_eval_add (t : ℝ) (h : t < 0) : hueWrap t = t + 1 := by
  simp only [hueWrap]
  rw [if_pos h, if_neg (not_lt.2 (by linarith : t + 1 ≤ 1))]

/-- The hue wrap subtracts 1 from parameters above 1. -/
theorem hueWrap_eval_sub (t : ℝ) (h : 1 < t) : hueWrap t = t - 1 := by
  simp only [hueWrap]
  rw [if_neg (not_lt.2 (by linarith : (0:ℝ) ≤ t)), if_pos h]

/-- `hue2rgb` returns `q` when the wrapped parameter lies in `[1/6, 1/2)`. -/
theorem hue2rgb_eval_q (p q t : ℝ) (h1 : 1/6 ≤ hueWrap t)
    (h2 : hueWrap t < 1/2) : hue2rgb p q t = q := by
  simp only [hue2rgb]
  rw [if_neg (not_lt.2 h1), if_pos h2]

/-- `hue2rgb` returns `p` when the wrapped parameter is at least `2/3`. -/
theorem hue2rgb_eval_p (p q t : ℝ) (h : 2/3 ≤ hueWrap t) : hue2rgb p q t = p := by
  simp only [hue2rgb]
  rw [if_neg (not_lt.2 (by linarith : 1/6 ≤ hueWrap t)),
    if_neg (not_lt.2 (by linarith : 1/2 ≤ hueWrap t)), if_neg (not_lt.2 h)]

/-- If three values lie in `[p, q]`, one of them attains `q` and one
attains `p`, then their max is `q` and their min is `p`. -/
theorem maxmin3 (c₁ c₂ c₃ p q : ℝ)
    (h₁ : p ≤ c₁ ∧ c₁ ≤ q) (h₂ : p ≤ c₂ ∧ c₂ ≤ q) (h₃ : p ≤ c₃ ∧ c₃ ≤ q)
    (hmax : c₁ = q ∨ c₂ = q ∨ c₃ = q) (hmin : c₁ = p ∨ c₂ = p ∨ c₃ = p) :
    max c₁ (max c₂ c₃) = q ∧ min c₁ (min c₂ c₃) = p := by
  constructor
  · refine le_antisymm (max_le h₁.2 (max_le h₂.2 h₃.2)) ?_
    rcases hmax with rfl | rfl | rfl
    · exact le_max_left _ _
    · exact le_trans (le_max_left _ _) (le_max_right _ _)
    · exact le_trans (le_max_right _ _) (le_max_right _ _)
  · refine le_antisymm ?_ (le_min h₁.1 (le_min h₂.1 h₃.1))
    rcases hmin with rfl | rfl | rfl
    · exact min_le_left _ _
    · exact le_trans (min_le_right _ _) (min_le_left _ _)
    · exact le_trans (min_le_right _ _) (min_le_right _ _)

set_option maxHeartbeats 1000000 in
/-- In the chromatic branch, the three pre-rounding channels of `hslToRgb`
have max `q` and min `p`, so their max and min sum to `2l`: the channel
triple loses no lightness information before quantization. -/
theorem hslToRgb_maxmin (h s l : ℝ) (hh0 : 0 ≤ h) (hh1 : h < 360)
    (hs0 : 0 ≤ s) (hs1 : s ≤ 1) (hl0 : 0 ≤ l) (hl1 : l ≤ 1) (hsne : s ≠ 0) :
    ∃ c₁ c₂ c₃ : ℝ,
      hslToRgb h s l =
        (round (c₁ * 255), round (c₂ * 255), round (c₃ * 255)) ∧
      max c₁ (max c₂ c₃) + min c₁ (min c₂ c₃) = 2 * l := by
  set q := if l < 1/2 then l * (1 + s) else l + s - l * s with hq
  set p := 2 * l - q with hp
  have hpq : p ≤ q := by
    rw [hp, hq]
    split_ifs <;> nlinarith
  have hsum : p + q = 2 * l := by rw [hp]; ring
  set t := h / 360 with ht
  have ht0 : 0 ≤ t := by rw [ht]; positivity
  have ht1 : t < 1 := by rw [ht]; rw [div_lt_one (by norm_num)]; linarith
  refine ⟨hue2rgb p q (t + 1/3), hue2rgb p q t, hue2rgb p q (t - 1/3),
    ?_, ?_⟩
  · simp only [hslToRgb, if_neg hsne]
  · have hmem₁ := hue2rgb_mem p q (t + 1/3) hpq (by linarith) (by linarith)
    have hmem₂ := hue2rgb_mem p q t hpq (by linarith) (by linarith)
    have hmem₃ := hue2rgb_mem p q (t - 1/3) hpq (by linarith) (by linarith)
    have key : max (hue2rgb p q (t + 1/3))
        (max (hue2rgb p q t) (hue2rgb p q (t - 1/3))) = q ∧
        min (hue2rgb p q (t + 1/3))
        (min (hue2rgb p q t) (hue2rgb p q (t - 1/3))) = p := by
      rcases lt_or_le t (1/6) with hS | hS1
      · -- sector 1: r = q, b = p
        refine maxmin3 _ _ _ _ _ hmem₁ hmem₂ hmem₃ (Or.inl ?_) (Or.inr (Or.inr ?_))
        · exact hue2rgb_eval_q p q _ (by rw [hueWrap_eval_id _ (by linarith) (by linarith)]; linarith)
            (by rw [hueWrap_eval_id _ (by linarith) (by linarith)]; linarith)
        · exact hue2rgb_eval_p p q _ (by rw [hueWrap_eval_add _ (by linarith)]; linarith)
      rcases lt_or_le t (1/3) with hS | hS2
      · -- sector 2: g = q, b = p
        refine maxmin3 _ _ _ _ _ hmem₁ hmem₂ hmem₃ (Or.inr (Or.inl ?_)) (Or.inr (Or.inr ?_))
        · exact hue2rgb_eval_q p q _ (by rw [hueWrap_eval_id _ (by linarith) (by linarith)]; linarith)
            (by rw [hueWrap_eval_id _ (by linarith) (by linarith)]; linarith)
        · exact hue2rgb_eval_p p q _ (by rw [hueWrap_eval_add _ (by linarith)]; linarith)
      rcases lt_or_le t (1/2) with hS | hS3
      · -- sector 3: g = q, r = p
        refine maxmin3 _ _ _ _ _ hmem₁ hmem₂ hmem₃ (Or.inr (Or.inl ?_)) (Or.inl ?_)
        · exact hue2rgb_eval_q p q _ (by rw [hueWrap_eval_id _ (by linarith) (by linarith)]; linarith)
            (by rw [hueWrap_eval_id _ (by linarith) (by linarith)]; linarith)
        · exact hue2rgb_eval_p p q _ (by rw [hueWrap_eval_id _ (by linarith) (by linarith)]; linarith)
      rcases lt_or_le t (2/3) with hS | hS4
      · -- sector 4: b = q, r = p
        refine maxmin3 _ _ _ _ _ hmem₁ hmem₂ hmem₃ (Or.inr (Or.inr ?_)) (Or.inl ?_)
        · exact hue2rgb_eval_q p q _ (by rw [hueWrap_eval_id _ (by linarith) (by linarith)]; linarith)
            (by rw [hueWrap_eval_id _ (by linarith) (by linarith)]; linarith)
        · exact hue2rgb_eval_p p q _ (by rw [hueWrap_eval_id _ (by linarith) (by linarith)]; linarith)
      rcases lt_or_le t (5/6) with hS | hS5
      · -- sector 5: b = q, g = p
        refine maxmin3 _ _ _ _ _ hmem₁ hmem₂ hmem₃ (Or.inr (Or.inr ?_)) (Or.inr (Or.inl ?_))
        · exact hue2rgb_eval_q p q _ (by rw [hueWrap_eval_id _ (by linarith) (by linarith)]; linarith)
            (by rw [hueWrap_eval_id _ (by linarith) (by linarith)]; linarith)
        · exact hue2rgb_eval_p p q _ (by rw [hueWrap_eval_id _ (by linarith) (by linarith)]; linarith)
      · -- sector 6: r = q, g = p
        refine maxmin3 _ _ _ _ _ hmem₁ hmem₂ hmem₃ (Or.inl ?_) (Or.inr (Or.inl ?_))
        · exact hue2rgb_eval_q p q _ (by rw [hueWrap_eval_sub _ (by linarith)]; linarith)
            (by rw [hueWrap_eval_sub _ (by linarith)]; linarith)
        · exact hue2rgb_eval_p p q _ (by rw [hueWrap_eval_id _ (by linarith) (by linarith)]; linarith)
    rw [key.1, key.2]
    linarith

/-- Dividing a rounded scaled channel back by 255 recovers the original
value to within half a quantization step. -/
theorem round_channel_err (c : ℝ) :
    |((round (c * 255) : ℤ) : ℝ) / 255 - c| ≤ 1 / 510 := by
  have key : ((round (c * 255) : ℤ) : ℝ) / 255 - c =
      -((c * 255 - ((round (c * 255) : ℤ) : ℝ)) / 255) := by ring
  rw [key, abs_neg, abs_div]
  have h := abs_sub_round (c * 255)
  have h255 : |(255 : ℝ)| = 255 := abs_of_nonneg (by norm_num)
  rw [h255]
  rw [div_le_div_iff (by norm_num) (by norm_num)]
  linarith

/-- Perturbing each of three values by at most `e` moves their max by at
most `e`. -/
theorem max3_perturb (a b c a' b' c' e : ℝ) (ha : |a - a'| ≤ e)
    (hb : |b - b'| ≤ e) (hc : |c - c'| ≤ e) :
    |max a (max b c) - max a' (max b' c')| ≤ e := by
  have h1 : |max b c - max b' c'| ≤ e :=
    (abs_max_sub_max_le_max b c b' c').trans (max_le hb hc)
  exact (abs_max_sub_max_le_max a (max b c) a' (max b' c')).trans (max_le ha h1)

/-- Perturbing each of three values by at most `e` moves their min by at
most `e`. -/
theorem min3_perturb (a b c a' b' c' e : ℝ) (ha : |a - a'| ≤ e)
    (hb : |b - b'| ≤ e) (hc : |c - c'| ≤ e) :
    |min a (min b c) - min a' (min b' c')| ≤ e := by
  have h1 : |min b c - min b' c'| ≤ e :=
    (abs_min_sub_min_le_max b c b' c').trans (max_le hb hc)
  exact (abs_min_sub_min_le_max a (min b c) a' (min b' c')).trans (max_le ha h1)

/-- The lightness component of `rgbToHsl` is always the mid-range of the
normalized channels, in both the achromatic and the chromatic branch. -/
theorem rgbToHsl_l (r g b : ℝ) :
    (rgbToHsl r g b).l =
      (max (r / 255) (max (g / 255) (b / 255)) +
        min (r / 255) (min (g / 255) (b / 255))) / 2 := by
  simp only [rgbToHsl]
  split_ifs <;> rfl

/-- When the normalized channel max equals the min, `rgbToHsl` reports
zero saturation. -/
theorem rgbToHsl_s_eq (r g b : ℝ)
    (h : max (r / 255) (max (g / 255) (b / 255)) =
      min (r / 255) (min (g / 255) (b / 255))) :
    (rgbToHsl r g b).s = 0 := by
  simp only [rgbToHsl]
  rw [if_pos h]

/-- `hue2rgb` with equal endpoints is constant. -/
theorem hue2rgb_self (p t : ℝ) : hue2rgb p p t = p := by
  simp only [hue2rgb]
  split_ifs <;> ring

/-- C6 counterexample: at the in-domain input `(h, s, l) = (0, 1, 0)` the
round trip `rgbToHsl ∘ hslToRgb` returns saturation `0`, an error of
exactly `1` on the full-scale saturation component — far beyond any
floating tolerance — even though `s ≠ 0`, so the hue exemption does not
apply.  The claimed round trip fails. -/
theorem hsl_roundtrip_saturation_cex :
    |(rgbToHsl ((hslToRgb 0 1 0).1 : ℝ) ((hslToRgb 0 1 0).2.1 : ℝ)
        ((hslToRgb 0 1 0).2.2 : ℝ)).s - 1| = 1 := by
  have e : hslToRgb 0 1 0 = (0, 0, 0) := by
    simp only [hslToRgb]
    rw [if_neg (one_ne_zero)]
    norm_num [hue2rgb_self]
  have e1 : (hslToRgb 0 1 0).1 = 0 := by rw [e]
  have e2 : (hslToRgb 0 1 0).2.1 = 0 := by rw [e]
  have e3 : (hslToRgb 0 1 0).2.2 = 0 := by rw [e]
  rw [e1, e2, e3]
  have hs : (rgbToHsl ((0 : ℤ) : ℝ) ((0 : ℤ) : ℝ) ((0 : ℤ) : ℝ)).s = 0 :=
    rgbToHsl_s_eq _ _ _ (by norm_num)
  rw [hs]
  norm_num

/-- C6 (amended): for all in-range `(h, s, l)`, the lightness component of
`rgbToHsl` applied to `hslToRgb h s l` reproduces `l` to within `1/510`
(half an 8-bit quantization step), and zero saturation round-trips
exactly; the saturation of chromatic inputs need not survive (see the
counterexample at `l = 0`). -/
theorem hsl_roundtrip_lightness (h s l : ℝ) (hh0 : 0 ≤ h) (hh1 : h < 360)
    (hs0 : 0 ≤ s) (hs1 : s ≤ 1) (hl0 : 0 ≤ l) (hl1 : l ≤ 1) :
    |(rgbToHsl ((hslToRgb h s l).1 : ℝ) ((hslToRgb h s l).2.1 : ℝ)
        ((hslToRgb h s l).2.2 : ℝ)).l - l| ≤ 1 / 510 ∧
    (s = 0 →
      (rgbToHsl ((hslToRgb h s l).1 : ℝ) ((hslToRgb h s l).2.1 : ℝ)
        ((hslToRgb h s l).2.2 : ℝ)).s = 0) := by
  by_cases hsz : s = 0
  · subst hsz
    have e : hslToRgb h 0 l = (round (l * 255), round (l * 255), round (l * 255)) := by
      simp only [hslToRgb, if_true]
    have e1 : (hslToRgb h 0 l).1 = round (l * 255) := by rw [e]
    have e2 : (hslToRgb h 0 l).2.1 = round (l * 255) := by rw [e]
    have e3 : (hslToRgb h 0 l).2.2 = round (l * 255) := by rw [e]
    rw [e1, e2, e3]
    constructor
    · rw [rgbToHsl_l]
      simp only [max_self, min_self]
      rw [show (((round (l * 255) : ℤ) : ℝ) / 255 +
          ((round (l * 255) : ℤ) : ℝ) / 255) / 2 =
          ((round (l * 255) : ℤ) : ℝ) / 255 from by ring]
      exact round_channel_err l
    · intro _
      exact rgbToHsl_s_eq _ _ _ (by simp)
  · obtain ⟨c₁, c₂, c₃, heq, hsum⟩ :=
      hslToRgb_maxmin h s l hh0 hh1 hs0 hs1 hl0 hl1 hsz
    have e1 : (hslToRgb h s l).1 = round (c₁ * 255) := by rw [heq]
    have e2 : (hslToRgb h s l).2.1 = round (c₂ * 255) := by rw [heq]
    have e3 : (hslToRgb h s l).2.2 = round (c₃ * 255) := by rw [heq]
    rw [e1, e2, e3]
    refine ⟨?_, fun hs0' => absurd hs0' hsz⟩
    rw [rgbToHsl_l]
    set A := ((round (c₁ * 255) : ℤ) : ℝ) / 255 with hA
    set B := ((round (c₂ * 255) : ℤ) : ℝ) / 255 with hB
    set C := ((round (c₃ * 255) : ℤ) : ℝ) / 255 with hC
    have h₁ : |A - c₁| ≤ 1 / 510 := round_channel_err c₁
    have h₂ : |B - c₂| ≤ 1 / 510 := round_channel_err c₂
    have h₃ : |C - c₃| ≤ 1 / 510 := round_channel_err c₃
    have hmax : |max A (max B C) - max c₁ (max c₂ c₃)| ≤ 1 / 510 :=
      max3_perturb _ _ _ _ _ _ _ h₁ h₂ h₃
    have hmin : |min A (min B C) - min c₁ (min c₂ c₃)| ≤ 1 / 510 :=
      min3_perturb _ _ _ _ _ _ _ h₁ h₂ h₃
    have heql : l = (max c₁ (max c₂ c₃) + min c₁ (min c₂ c₃)) / 2 := by
      linarith
    rw [show (max A (max B C) + min A (min B C)) / 2 - l =
        ((max A (max B C) - max c₁ (max c₂ c₃)) +
          (min A (min B C) - min c₁ (min c₂ c₃))) / 2 from by rw [heql]; ring]
    rw [abs_div, abs_of_nonneg (by norm_num : (0 : ℝ) ≤ 2)]
    have habs := abs_add (max A (max B C) - max c₁ (max c₂ c₃))
      (min A (min B C) - min c₁ (min c₂ c₃))
    linarith

/-- Witness for the amended C6 theorem at `(h, s, l) = (0, 0, 1/2)`. -/
theorem hsl_roundtrip_lightness_witness :
    |(rgbToHsl ((hslToRgb 0 0 (1/2)).1 : ℝ) ((hslToRgb 0 0 (1/2)).2.1 : ℝ)
        ((hslToRgb 0 0 (1/2)).2.2 : ℝ)).l - 1/2| ≤ 1 / 510 ∧
    ((0 : ℝ) = 0 →
      (rgbToHsl ((hslToRgb 0 0 (1/2)).1 : ℝ) ((hslToRgb 0 0 (1/2)).2.1 : ℝ)
        ((hslToRgb 0 0 (1/2)).2.2 : ℝ)).s = 0) :=
  hsl_roundtrip_lightness 0 0 (1/2) (by norm_num) (by norm_num) (by norm_num)
    (by norm_num) (by norm_num) (by norm_num)

/-- The final clamp of the lightness stages keeps values in `[0.02, 0.98]`. -/
theorem clamp_mem (x : ℝ) :
    0.02 ≤ min 0.98 (max 0.02 x) ∧ min 0.98 (max 0.02 x) ≤ 0.98 :=
  ⟨le_min (by norm_num) (le_max_left _ _), min_le_left _ _⟩

/-- The blended lightness always lies in `[0.02, 0.98]`. -/
theorem blendLightness_mem (baseHsl paintHsl : HSL) :
    0.02 ≤ blendLightness baseHsl paintHsl ∧
    blendLightness baseHsl paintHsl ≤ 0.98 :=
  clamp_mem _

/-- The blended saturation lies in `[0, 1]` when both inputs' saturations
are nonnegative. -/
theorem blendSaturation_mem (baseHsl paintHsl : HSL) (hp : 0 ≤ paintHsl.s)
    (hb : 0 ≤ baseHsl.s) :
    0 ≤ blendSaturation baseHsl paintHsl ∧
    blendSaturation baseHsl paintHsl ≤ 1 := by
  rw [blendSaturation]
  refine ⟨le_min (by norm_num) ?_, min_le_left _ _⟩
  nlinarith [mul_nonneg hp hb]

/-- The wrapped hue difference of two hues in `[0, 360)` lies in
`[-180, 180]`. -/
theorem wrapHueDiff_mem (x : ℝ) (h1 : -360 < x) (h2 : x < 360) :
    -180 ≤ wrapHueDiff x ∧ wrapHueDiff x ≤ 180 := by
  simp only [wrapHueDiff]
  split_ifs <;> constructor <;> linarith

/-- The final hue wrap maps `[-360, 720)` into `[0, 360)`. -/
theorem wrapHue_mem (x : ℝ) (h1 : -360 ≤ x) (h2 : x < 720) :
    0 ≤ wrapHue x ∧ wrapHue x < 360 := by
  simp only [wrapHue]
  split_ifs <;> constructor <;> linarith

/-- The blended hue lies in `[0, 360)` for in-range inputs. -/
theorem blendHue_mem (baseHsl paintHsl : HSL)
    (hbh0 : 0 ≤ baseHsl.h) (hbh1 : baseHsl.h < 360)
    (hph0 : 0 ≤ paintHsl.h) (hph1 : paintHsl.h < 360)
    (hbs1 : baseHsl.s ≤ 1) :
    0 ≤ blendHue baseHsl paintHsl ∧ blendHue baseHsl paintHsl < 360 := by
  rw [blendHue]
  split_ifs with hbs
  · obtain ⟨hd0, hd1⟩ := wrapHueDiff_mem (baseHsl.h - paintHsl.h)
      (by linarith) (by linarith)
    have hw0 : 0 ≤ 0.03 * baseHsl.s := by linarith
    have hw1 : 0.03 * baseHsl.s ≤ 0.03 := by linarith
    have hsh1 : wrapHueDiff (baseHsl.h - paintHsl.h) * (0.03 * baseHsl.s) ≤
        5.4 := by
      nlinarith [mul_nonneg (by linarith : (0:ℝ) ≤
        180 - wrapHueDiff (baseHsl.h - paintHsl.h)) hw0]
    have hsh0 : -5.4 ≤ wrapHueDiff (baseHsl.h - paintHsl.h) *
        (0.03 * baseHsl.s) := by
      nlinarith [mul_nonneg (by linarith : (0:ℝ) ≤
        wrapHueDiff (baseHsl.h - paintHsl.h) + 180) hw0]
    exact wrapHue_mem _ (by linarith) (by linarith)
  · exact ⟨hph0, hph1⟩

/-- The soft sigmoid always lies strictly between 0 and 1. -/
theorem softSigmoid_mem (x center steepness : ℝ) :
    0 < softSigmoid x center steepness ∧ softSigmoid x center steepness < 1 := by
  rw [softSigmoid]
  have he : 0 < Real.exp (-steepness * (x - center)) := Real.exp_pos _
  constructor
  · exact div_pos one_pos (by linarith)
  · rw [div_lt_one (by linarith)]
    linarith

/-- The normal-map lighting factor lies strictly between 0.8 and 1.15. -/
theorem lightingFactor_mem (n : ℤ × ℤ × ℤ) :
    0.8 < lightingFactor n ∧ lightingFactor n < 1.15 := by
  rw [lightingFactor]
  obtain ⟨h0, h1⟩ := softSigmoid_mem
    ((((n.1 : ℝ) / 255) * 2 - 1) * 0.1 + (((n.2.1 : ℝ) / 255) * 2 - 1) * -0.2 +
      ((n.2.2 : ℝ) / 255) * 0.97) 0.5 3
  constructor <;> [linarith; linarith]

/-- **C7.** For every base and paint pixel with channels in `[0, 255]` and
any optional normal pixel, every channel of the RGB triple returned by
`applyPaintColor` lies in `[0, 255]`; the function is total, so it never
fails on such input. -/
theorem applyPaintColor_range (basePixel paintColor : ℤ × ℤ × ℤ)
    (normalPixel : Option (ℤ × ℤ × ℤ))
    (hbase : 0 ≤ basePixel.1 ∧ basePixel.1 ≤ 255 ∧
      0 ≤ basePixel.2.1 ∧ basePixel.2.1 ≤ 255 ∧
      0 ≤ basePixel.2.2 ∧ basePixel.2.2 ≤ 255)
    (hpaint : 0 ≤ paintColor.1 ∧ paintColor.1 ≤ 255 ∧
      0 ≤ paintColor.2.1 ∧ paintColor.2.1 ≤ 255 ∧
      0 ≤ paintColor.2.2 ∧ paintColor.2.2 ≤ 255) :
    (0 ≤ (applyPaintColor basePixel paintColor normalPixel).1 ∧
      (applyPaintColor basePixel paintColor normalPixel).1 ≤ 255) ∧
    (0 ≤ (applyPaintColor basePixel paintColor normalPixel).2.1 ∧
      (applyPaintColor basePixel paintColor normalPixel).2.1 ≤ 255) ∧
    (0 ≤ (applyPaintColor basePixel paintColor normalPixel).2.2 ∧
      (applyPaintColor basePixel paintColor normalPixel).2.2 ≤ 255) := by
  obtain ⟨hb1, hb2, hb3, hb4, hb5, hb6⟩ := hbase
  obtain ⟨hp1, hp2, hp3, hp4, hp5, hp6⟩ := hpaint
  have hbmem := rgbToHsl_mem (basePixel.1 : ℝ) (basePixel.2.1 : ℝ)
    (basePixel.2.2 : ℝ) (by exact_mod_cast hb1) (by exact_mod_cast hb2)
    (by exact_mod_cast hb3) (by exact_mod_cast hb4)
    (by exact_mod_cast hb5) (by exact_mod_cast hb6)
  have hpmem := rgbToHsl_mem (paintColor.1 : ℝ) (paintColor.2.1 : ℝ)
    (paintColor.2.2 : ℝ) (by exact_mod_cast hp1) (by exact_mod_cast hp2)
    (by exact_mod_cast hp3) (by exact_mod_cast hp4)
    (by exact_mod_cast hp5) (by exact_mod_cast hp6)
  obtain ⟨⟨hbh0, hbh1⟩, ⟨hbs0, hbs1⟩, ⟨hbl0, hbl1⟩⟩ := hbmem
  obtain ⟨⟨hph0, hph1⟩, ⟨hps0, hps1⟩, ⟨hpl0, hpl1⟩⟩ := hpmem
  set B := rgbToHsl (basePixel.1 : ℝ) (basePixel.2.1 : ℝ) (basePixel.2.2 : ℝ)
    with hB
  set P := rgbToHsl (paintColor.1 : ℝ) (paintColor.2.1 : ℝ)
    (paintColor.2.2 : ℝ) with hP
  obtain ⟨hL0, hL1⟩ := blendLightness_mem B P
  obtain ⟨hS0, hS1⟩ := blendSaturation_mem B P hps0 hbs0
  obtain ⟨hH0, hH1⟩ := blendHue_mem B P hbh0 hbh1 hph0 hph1 hbs1
  cases normalPixel with
  | none =>
      exact hslToRgb_mem (blendHue B P) (blendSaturation B P)
        (blendLightness B P) hH0 hH1 hS0 hS1 (by linarith) (by linarith)
  | some n =>
      obtain ⟨hlf0, hlf1⟩ := lightingFactor_mem n
      have hdev : |lightingFactor n - 1| ≤ 0.2 := by
        rw [abs_le]
        constructor <;> linarith
      have hS2_0 : 0 ≤ blendSaturation B P * (1 - |lightingFactor n - 1| * 0.15) := by
        apply mul_nonneg hS0
        linarith
      have hS2_1 : blendSaturation B P * (1 - |lightingFactor n - 1| * 0.15) ≤ 1 := by
        have habs : 0 ≤ |lightingFactor n - 1| := abs_nonneg _
        nlinarith
      obtain ⟨hL3_0, hL3_1⟩ := clamp_mem (blendLightness B P * lightingFactor n)
      exact hslToRgb_mem (blendHue B P)
        (blendSaturation B P * (1 - |lightingFactor n - 1| * 0.15))
        (min 0.98 (max 0.02 (blendLightness B P * lightingFactor n)))
        hH0 hH1 hS2_0 hS2_1 (by linarith) (by linarith)

/-- Witness for **C7** at the concrete gray base and terracotta paint of
the paint-realism scenario, with no normal sample. -/
theorem applyPaintColor_range_witness :
    ((0 ≤ ((180, 180, 180) : ℤ × ℤ × ℤ).1 ∧ ((180, 180, 180) : ℤ × ℤ × ℤ).1 ≤ 255 ∧
      0 ≤ ((180, 180, 180) : ℤ × ℤ × ℤ).2.1 ∧ ((180, 180, 180) : ℤ × ℤ × ℤ).2.1 ≤ 255 ∧
      0 ≤ ((180, 180, 180) : ℤ × ℤ × ℤ).2.2 ∧ ((180, 180, 180) : ℤ × ℤ × ℤ).2.2 ≤ 255) ∧
     (0 ≤ ((224, 80, 64) : ℤ × ℤ × ℤ).1 ∧ ((224, 80, 64) : ℤ × ℤ × ℤ).1 ≤ 255 ∧
      0 ≤ ((224, 80, 64) : ℤ × ℤ × ℤ).2.1 ∧ ((224, 80, 64) : ℤ × ℤ × ℤ).2.1 ≤ 255 ∧
      0 ≤ ((224, 80, 64) : ℤ × ℤ × ℤ).2.2 ∧ ((224, 80, 64) : ℤ × ℤ × ℤ).2.2 ≤ 255)) ∧
    ((0 ≤ (applyPaintColor (180, 180, 180) (224, 80, 64) none).1 ∧
      (applyPaintColor (180, 180, 180) (224, 80, 64) none).1 ≤ 255) ∧
     (0 ≤ (applyPaintColor (180, 180, 180) (224, 80, 64) none).2.1 ∧
      (applyPaintColor (180, 180, 180) (224, 80, 64) none).2.1 ≤ 255) ∧
     (0 ≤ (applyPaintColor (180, 180, 180) (224, 80, 64) none).2.2 ∧
      (applyPaintColor (180, 180, 180) (224, 80, 64) none).2.2 ≤ 255)) :=
  ⟨⟨by norm_num, by norm_num⟩,
   applyPaintColor_range (180, 180, 180) (224, 80, 64) none
     (by norm_num) (by norm_num)⟩

/-- `hue2rgb` in the rising first sector `[0, 1/6)`. -/
theorem hue2rgb_eval_lo (p q t : ℝ) (h0 : 0 ≤ t) (h1 : t < 1/6) :
    hue2rgb p q t = p + (q - p) * 6 * t := by
  simp only [hue2rgb]
  rw [hueWrap_eval_id t h0 (by linarith), if_pos h1]

/-- The base pixel `(180, 180, 180)` is an achromatic gray of lightness
`12/17`. -/
theorem rgbToHsl_gray180 : rgbToHsl 180 180 180 = ⟨0, 0, 12/17⟩ := by
  simp only [rgbToHsl, max_self, min_self, HSL.mk.injEq]
  norm_num

/-- The paint colour `(224, 80, 64)` has hue `6`, saturation `80/111` and
lightness `48/85`. -/
theorem rgbToHsl_paint : rgbToHsl 224 80 64 = ⟨6, 80/111, 48/85⟩ := by
  simp only [rgbToHsl, HSL.mk.injEq]
  norm_num [max_def, min_def]

/-- The repainted pixel `(230, 91, 75)` has hue `192/31`, saturation
`31/41` and lightness `61/102`. -/
theorem rgbToHsl_repainted : rgbToHsl 230 91 75 = ⟨192/31, 31/41, 61/102⟩ := by
  simp only [rgbToHsl, HSL.mk.injEq]
  norm_num [max_def, min_def]

/-- On the achromatic base the hue stage keeps the paint hue unchanged. -/
theorem blendHue_eval : blendHue ⟨0, 0, 12/17⟩ ⟨6, 80/111, 48/85⟩ = 6 := by
  simp only [blendHue]
  norm_num

/-- The saturation stage on the gray base boosts the paint saturation to
`3492/4625`. -/
theorem blendSaturation_eval :
    blendSaturation ⟨0, 0, 12/17⟩ ⟨6, 80/111, 48/85⟩ = 3492/4625 := by
  simp only [blendSaturation]
  norm_num [min_def]

/-- The luminance stage on the gray base lands at `2000811/3340840`
(about `0.599`), inside the soft-clamp window, so no clamping fires. -/
theorem blendLightness_eval :
    blendLightness ⟨0, 0, 12/17⟩ ⟨6, 80/111, 48/85⟩ = 2000811/3340840 := by
  simp only [blendLightness, hermite]
  rw [show |(12/17 : ℝ) - 0.5| = 7/34 from by
    rw [abs_of_nonneg (by norm_num : (0:ℝ) ≤ 12/17 - 0.5)]; norm_num]
  norm_num [min_def, max_def]

/-- Converting the blended HSL back to RGB yields `(230, 91, 75)`. -/
theorem hslToRgb_repainted :
    hslToRgb 6 (3492/4625) (2000811/3340840) = (230, 91, 75) := by
  simp only [hslToRgb]
  rw [if_neg (by norm_num : (3492/4625 : ℝ) ≠ 0),
    if_neg (by norm_num : ¬((2000811/3340840 : ℝ) < 1/2))]
  rw [hue2rgb_eval_q _ _ _
      (by rw [hueWrap_eval_id _ (by norm_num) (by norm_num)]; norm_num)
      (by rw [hueWrap_eval_id _ (by norm_num) (by norm_num)]; norm_num),
    hue2rgb_eval_lo _ _ _ (by norm_num) (by norm_num),
    hue2rgb_eval_p _ _ _
      (by rw [hueWrap_eval_add _ (by norm_num)]; norm_num)]
  simp only [Prod.mk.injEq]
  refine ⟨?_, ?_, ?_⟩ <;> rw [round_eq] <;> norm_num

/-- Full evaluation of the C9 scenario: repainting the gray base
`(180, 180, 180)` with `(224, 80, 64)` and no normal sample gives
`(230, 91, 75)`. -/
theorem applyPaintColor_eval :
    applyPaintColor (180, 180, 180) (224, 80, 64) none = (230, 91, 75) := by
  simp only [applyPaintColor]
  rw [show ((180 : ℤ) : ℝ) = 180 from by norm_num,
    show ((224 : ℤ) : ℝ) = 224 from by norm_num,
    show ((80 : ℤ) : ℝ) = 80 from by norm_num,
    show ((64 : ℤ) : ℝ) = 64 from by norm_num,
    rgbToHsl_gray180, rgbToHsl_paint, blendHue_eval, blendSaturation_eval,
    blendLightness_eval, hslToRgb_repainted]

/-- C9: `applyPaintColor (180,180,180) (224,80,64) none` is not the flat
paint colour, its hue `192/31` is within `3` degrees of the paint hue `6`
(the actual gap is `6/31 ≈ 0.19`), and its lightness `61/102` stays within
`0.15` of the base lightness `12/17` (the actual gap is `11/102 ≈ 0.11`). -/
theorem applyPaintColor_realism :
    applyPaintColor (180, 180, 180) (224, 80, 64) none ≠ (224, 80, 64) ∧
    |(rgbToHsl ((applyPaintColor (180, 180, 180) (224, 80, 64) none).1 : ℝ)
        ((applyPaintColor (180, 180, 180) (224, 80, 64) none).2.1 : ℝ)
        ((applyPaintColor (180, 180, 180) (224, 80, 64) none).2.2 : ℝ)).h -
      (rgbToHsl 224 80 64).h| ≤ 3 ∧
    |(rgbToHsl ((applyPaintColor (180, 180, 180) (224, 80, 64) none).1 : ℝ)
        ((applyPaintColor (180, 180, 180) (224, 80, 64) none).2.1 : ℝ)
        ((applyPaintColor (180, 180, 180) (224, 80, 64) none).2.2 : ℝ)).l -
      (rgbToHsl 180 180 180).l| ≤ 0.15 := by
  have e1 : (applyPaintColor (180, 180, 180) (224, 80, 64) none).1 = 230 := by
    rw [applyPaintColor_eval]
  have e2 : (applyPaintColor (180, 180, 180) (224, 80, 64) none).2.1 = 91 := by
    rw [applyPaintColor_eval]
  have e3 : (applyPaintColor (180, 180, 180) (224, 80, 64) none).2.2 = 75 := by
    rw [applyPaintColor_eval]
  refine ⟨by rw [applyPaintColor_eval]; decide, ?_, ?_⟩
  · rw [e1, e2, e3,
      show ((230 : ℤ) : ℝ) = 230 from by norm_num,
      show ((91 : ℤ) : ℝ) = 91 from by norm_num,
      show ((75 : ℤ) : ℝ) = 75 from by norm_num,
      rgbToHsl_repainted, rgbToHsl_paint]
    rw [show (HSL.mk (192/31) (31/41) (61/102)).h = 192/31 from rfl,
      show (HSL.mk 6 (80/111) (48/85)).h = 6 from rfl,
      abs_of_nonneg (by norm_num : (0:ℝ) ≤ 192/31 - 6)]
    norm_num
  · rw [e1, e2, e3,
      show ((230 : ℤ) : ℝ) = 230 from by norm_num,
      show ((91 : ℤ) : ℝ) = 91 from by norm_num,
      show ((75 : ℤ) : ℝ) = 75 from by norm_num,
      rgbToHsl_repainted, rgbToHsl_gray180]
    rw [show (HSL.mk (192/31) (31/41) (61/102)).l = 61/102 from rfl,
      show (HSL.mk 0 0 (12/17)).l = 12/17 from rfl,
      abs_of_nonpos (by norm_num : (61/102 : ℝ) - 12/17 ≤ 0)]
    norm_num

end ColorUtils

/-- Features extracted from one of the sixteen identical sample masks:
origin centre, mid-gray fallback colour, area 100, aspect ratio 1. -/
theorem features_mkSmartMask (i : ℕ) (w : ℕ) :
    MaskUtils.extractMaskFeatures (mkSmartMask i) w none =
      { id := i
        centerX := 0
        centerY := 0
        avgColor := (128, 128, 128)
        normalVector := MaskUtils.normalizeVector (128, 128, 128)
        area := 100
        aspectRatio := 1 } := by
  rw [MaskUtils.extractMaskFeatures, mkSmartMask]
  simp only [MaskUtils.MaskFeatures.mk.injEq]
  norm_num

/-- The unit normal of the mid-gray sample normal dotted with itself is 1. -/
theorem normalizeVector_mid_dot :
    (MaskUtils.normalizeVector (128, 128, 128)).1 *
      (MaskUtils.normalizeVector (128, 128, 128)).1 +
    (MaskUtils.normalizeVector (128, 128, 128)).2.1 *
      (MaskUtils.normalizeVector (128, 128, 128)).2.1 +
    (MaskUtils.normalizeVector (128, 128, 128)).2.2 *
      (MaskUtils.normalizeVector (128, 128, 128)).2.2 = 1 := by
  have hx : ((((128 : ℤ) : ℝ)) / 255) * 2 - 1 = 1 / 255 := by norm_num
  have hs : (1 / 255 : ℝ) * (1 / 255) + (1 / 255) * (1 / 255) +
      (1 / 255) * (1 / 255) = 3 / 65025 := by norm_num
  have hpos : (0 : ℝ) < 3 / 65025 := by norm_num
  have hsqrt : Real.sqrt (3 / 65025) ≠ 0 := ne_of_gt (Real.sqrt_pos.2 hpos)
  have hval : MaskUtils.normalizeVector (128, 128, 128) =
      ((1 / 255) / Real.sqrt (3 / 65025), (1 / 255) / Real.sqrt (3 / 65025),
        (1 / 255) / Real.sqrt (3 / 65025)) := by
    rw [MaskUtils.normalizeVector]
    simp only [hx, hs]
    rw [if_neg hsqrt]
  rw [hval]
  have hmul : Real.sqrt (3 / 65025) * Real.sqrt (3 / 65025) = 3 / 65025 :=
    Real.mul_self_sqrt hpos.le
  rw [div_mul_div_comm, div_mul_div_comm, hmul]
  norm_num

/-- Colour similarity of a colour with itself is exactly 1. -/
theorem colorSimOf_self (c : ℤ × ℤ × ℤ) : MaskUtils.colorSimOf c c = 1 := by
  rw [MaskUtils.colorSimOf]
  simp

/-- The strict-weight similarity score between any two of the sixteen
identical sample masks' features is exactly 1. -/
theorem calcSim_mkSmartMask (i j : ℕ) (w h : ℕ) (hw : w = 100) (hh : h = 100) :
    MaskUtils.calculateSimilarity
      (MaskUtils.extractMaskFeatures (mkSmartMask j) w none)
      (MaskUtils.extractMaskFeatures (mkSmartMask i) w none)
      w h MaskUtils.strictWeights = 1 := by
  subst hw hh
  rw [features_mkSmartMask, features_mkSmartMask,
    MaskUtils.calculateSimilarity, MaskUtils.strictWeights]
  simp only
  rw [colorSimOf_self, normalizeVector_mid_dot]
  norm_num [Real.logb_one]

/-- Each entry `findSmartGroup` builds for a sample mask against the sample
seed scores 1 with colour similarity 1. -/
theorem smartEntry_mkSmartMask (i j : ℕ) :
    MaskUtils.smartEntry
      (MaskUtils.extractMaskFeatures (mkSmartMask j) smartMaskData.width none)
      smartMaskData.width smartMaskData.height none (mkSmartMask i) =
      ⟨mkSmartMask i, 1, 1⟩ := by
  rw [MaskUtils.smartEntry]
  simp only [MaskUtils.SimilarityEntry.mk.injEq]
  refine ⟨trivial, ?_, ?_⟩
  · exact calcSim_mkSmartMask i j _ _ rfl rfl
  · rw [features_mkSmartMask, features_mkSmartMask]
    exact colorSimOf_self _

/-- The sorted entry list of the sample smart-group query: all sixteen
entries in input order, each scoring 1. -/
theorem smartSorted_eval :
    MaskUtils.smartSorted (mkSmartMask 15) smartMasks16 smartMaskData none =
      (List.range 16).map
        (fun i => (⟨mkSmartMask i, 1, 1⟩ : MaskUtils.SimilarityEntry)) := by
  have hmap : smartMasks16.map
      (MaskUtils.smartEntry
        (MaskUtils.extractMaskFeatures (mkSmartMask 15) smartMaskData.width none)
        smartMaskData.width smartMaskData.height none) =
      (List.range 16).map
        (fun i => (⟨mkSmartMask i, 1, 1⟩ : MaskUtils.SimilarityEntry)) := by
    rw [smartMasks16, List.map_map]
    refine List.map_congr_left ?_
    intro i _
    exact smartEntry_mkSmartMask i 15
  have hss : MaskUtils.smartSorted (mkSmartMask 15) smartMasks16 smartMaskData
      none = MaskUtils.sortDesc (smartMasks16.map
        (MaskUtils.smartEntry
          (MaskUtils.extractMaskFeatures (mkSmartMask 15) smartMaskData.width
            none)
          smartMaskData.width smartMaskData.height none)) := rfl
  rw [hss, hmap]
  refine MaskUtils.sortDesc_const_one _ ?_
  intro e he
  obtain ⟨i, _, rfl⟩ := List.mem_map.1 he
  rfl

/-- The adaptive cutoff of the sample smart-group query is 0.92. -/
theorem adaptiveCut_eval :
    MaskUtils.adaptiveCut (mkSmartMask 15) smartMasks16 smartMaskData none
      0.75 = 0.92 := by
  rw [MaskUtils.adaptiveCut, smartSorted_eval]
  have hfil : ((List.range 16).map
      (fun i => (⟨mkSmartMask i, 1, 1⟩ : MaskUtils.SimilarityEntry))).filter
        (fun s => decide (s.colorSim ≥ 0.88)) =
      (List.range 16).map
        (fun i => (⟨mkSmartMask i, 1, 1⟩ : MaskUtils.SimilarityEntry)) := by
    rw [List.filter_eq_self]
    intro e he
    obtain ⟨i, _, rfl⟩ := List.mem_map.1 he
    exact decide_eq_true (by norm_num)
  rw [hfil]
  have hsc : ((List.range 16).map
      (fun i => (⟨mkSmartMask i, 1, 1⟩ : MaskUtils.SimilarityEntry))).map
        MaskUtils.SimilarityEntry.score = List.replicate 16 (1 : ℝ) := by
    rw [List.map_map]
    have : (List.range 16).map
        (MaskUtils.SimilarityEntry.score ∘
          fun i => (⟨mkSmartMask i, 1, 1⟩ : MaskUtils.SimilarityEntry)) =
        (List.range 16).map (fun _ => (1 : ℝ)) := rfl
    rw [this, List.map_const', List.length_range]
  rw [hsc]
  exact MaskUtils.findAdaptiveThreshold_replicate16

/-- The capped selection of the sample smart-group query: the first fifteen
sample masks — the seed, sorted last among equals, is cut off. -/
theorem smartFiltered_eval :
    MaskUtils.smartFiltered (mkSmartMask 15) smartMasks16 smartMaskData none
      0.75 = (List.range 15).map mkSmartMask := by
  rw [MaskUtils.smartFiltered, smartSorted_eval, adaptiveCut_eval]
  have hfil : ((List.range 16).map
      (fun i => (⟨mkSmartMask i, 1, 1⟩ : MaskUtils.SimilarityEntry))).filter
        (fun s => decide (s.score ≥ 0.92 ∧ s.colorSim ≥ 0.88)) =
      (List.range 16).map
        (fun i => (⟨mkSmartMask i, 1, 1⟩ : MaskUtils.SimilarityEntry)) := by
    rw [List.filter_eq_self]
    intro e he
    obtain ⟨i, _, rfl⟩ := List.mem_map.1 he
    exact decide_eq_true ⟨by norm_num, by norm_num⟩
  rw [hfil, ← List.map_take, List.take_range]
  have h15 : (15 ⊓ 16) = 15 := rfl
  rw [h15, List.map_map]
  rfl

/-- **C5 (counterexample).** `findSmartGroup` can return 16 regions, one
more than the claimed cap of 15: with sixteen feature-identical masks and
the seed placed last, all sixteen pass both gates with equal scores, the
stable sort keeps the seed in position 16, the 15-cap slices it off, and
the force-include then prepends it — yielding 16 regions. -/
theorem findSmartGroup_over_cap_cex :
    15 < (MaskUtils.findSmartGroup (mkSmartMask 15) smartMasks16 smartMaskData
      none 0.75).length := by
  rw [MaskUtils.findSmartGroup, smartFiltered_eval]
  have hfind : ((List.range 15).map mkSmartMask).find?
      (fun m => m.id == (mkSmartMask 15).id) = none := by
    rw [List.find?_eq_none]
    intro m hm
    obtain ⟨i, hi, rfl⟩ := List.mem_map.1 hm
    have hlt : i < 15 := List.mem_range.1 hi
    simp only [mkSmartMask, beq_iff_eq]
    omega
  rw [hfind]
  simp only [Option.isNone_none, if_pos, List.length_cons, List.length_map,
    List.length_range]
  omega

namespace MaskGenerator

/-- Specification of the inner loop of `groupMasksByNormal`: it extends the
group by some list `Δ` of ids taken from the still-unassigned masks of
`rest`, marks exactly those assigned, and the ids it consumes plus the
ids it leaves unassigned are a permutation of the ids that were
unassigned on entry. -/
theorem groupInner_spec (n1 : ℝ × ℝ × ℝ) (c : ℝ) (L : List SerializedMask)
    (hnd : (L.map SerializedMask.id).Nodup) (g : List ℕ) (asg : Finset ℕ) :
    ∃ Δ : List ℕ,
      groupInner n1 c L (g, asg) = (g ++ Δ, asg ∪ Δ.toFinset) ∧
      (∀ x ∈ Δ, x ∈ L.map SerializedMask.id ∧ x ∉ asg) ∧
      List.Perm
        (Δ ++ (L.map SerializedMask.id).filter
          (fun x => decide (x ∉ asg ∪ Δ.toFinset)))
        ((L.map SerializedMask.id).filter (fun x => decide (x ∉ asg))) := by
  induction L generalizing g asg with
  | nil =>
      exact ⟨[], by simp [groupInner], by simp, by simp⟩
  | cons mj L' ih =>
      have hnd' : (L'.map SerializedMask.id).Nodup := (List.nodup_cons.1 hnd).2
      have hmjL' : mj.id ∉ L'.map SerializedMask.id := (List.nodup_cons.1 hnd).1
      by_cases hasg : mj.id ∈ asg
      · -- already assigned: skipped
        obtain ⟨Δ, heq, hmem, hperm⟩ := ih hnd' g asg
        refine ⟨Δ, ?_, ?_, ?_⟩
        · simpa [groupInner, List.foldl_cons, hasg] using heq
        · exact fun x hx => ⟨List.mem_cons_of_mem _ (hmem x hx).1, (hmem x hx).2⟩
        · have hS : mj.id ∈ asg ∪ Δ.toFinset := Finset.mem_union_left _ hasg
          simpa [List.filter_cons, hasg, hS] using hperm
      · by_cases hdot : n1.1 * (normalizeVector mj.avgNormal).1 +
            n1.2.1 * (normalizeVector mj.avgNormal).2.1 +
            n1.2.2 * (normalizeVector mj.avgNormal).2.2 ≥ c
        · -- added to the group
          obtain ⟨Δ', heq, hmem, hperm⟩ := ih hnd' (g ++ [mj.id]) (insert mj.id asg)
          have hset : asg ∪ (mj.id :: Δ').toFinset =
              insert mj.id asg ∪ Δ'.toFinset := by
            simp only [List.toFinset_cons, Finset.union_insert, Finset.insert_union]
          refine ⟨mj.id :: Δ', ?_, ?_, ?_⟩
          · have hstep : groupInner n1 c (mj :: L') (g, asg) =
                groupInner n1 c L' (g ++ [mj.id], insert mj.id asg) := by
              simp [groupInner, List.foldl_cons, hasg, hdot]
            rw [hstep, heq, hset]
            simp
          · intro x hx
            rcases List.mem_cons.1 hx with rfl | hx'
            · exact ⟨List.mem_cons_self _ _, hasg⟩
            · have h2 := (hmem x hx').2
              simp only [Finset.mem_insert, not_or] at h2
              exact ⟨List.mem_cons_of_mem _ (hmem x hx').1, h2.2⟩
          · rw [hset]
            simp only [List.map_cons]
            have hSmem : mj.id ∈ insert mj.id asg ∪ Δ'.toFinset := by simp
            have hfc : (L'.map SerializedMask.id).filter
                (fun x => decide (x ∉ insert mj.id asg)) =
                (L'.map SerializedMask.id).filter (fun x => decide (x ∉ asg)) := by
              refine List.filter_congr ?_
              intro x hx
              have hxne : x ≠ mj.id := fun h => hmjL' (h ▸ hx)
              simp [hxne]
            have h1 : ((mj.id :: Δ') ++
                (mj.id :: L'.map SerializedMask.id).filter
                  (fun x => decide (x ∉ insert mj.id asg ∪ Δ'.toFinset))) =
                mj.id :: (Δ' ++ (L'.map SerializedMask.id).filter
                  (fun x => decide (x ∉ insert mj.id asg ∪ Δ'.toFinset))) := by
              simp [List.filter_cons, hSmem]
            have h2 : (mj.id :: L'.map SerializedMask.id).filter
                (fun x => decide (x ∉ asg)) =
                mj.id :: (L'.map SerializedMask.id).filter
                  (fun x => decide (x ∉ asg)) := by
              simp [List.filter_cons, hasg]
            rw [h1, h2]
            exact List.Perm.cons _ (hperm.trans (by rw [hfc]))
        · -- unassigned but orientation too far: left unassigned
          obtain ⟨Δ, heq, hmem, hperm⟩ := ih hnd' g asg
          have hmjΔ : mj.id ∉ Δ := fun h => hmjL' (hmem _ h).1
          have hS : mj.id ∉ asg ∪ Δ.toFinset := by
            simp only [Finset.mem_union, List.mem_toFinset, not_or]
            exact ⟨hasg, hmjΔ⟩
          refine ⟨Δ, ?_, ?_, ?_⟩
          · simpa [groupInner, List.foldl_cons, hasg, hdot] using heq
          · exact fun x hx => ⟨List.mem_cons_of_mem _ (hmem x hx).1, (hmem x hx).2⟩
          · simp only [List.map_cons]
            have h1 : (Δ ++ (mj.id :: L'.map SerializedMask.id).filter
                (fun x => decide (x ∉ asg ∪ Δ.toFinset))) =
                Δ ++ mj.id :: (L'.map SerializedMask.id).filter
                  (fun x => decide (x ∉ asg ∪ Δ.toFinset)) := by
              have hkeep : decide (mj.id ∉ asg ∪ Δ.toFinset) = true :=
                decide_eq_true hS
              simp [List.filter_cons, hkeep]
              exact ⟨hasg, hmjΔ⟩
            have h2 : (mj.id :: L'.map SerializedMask.id).filter
                (fun x => decide (x ∉ asg)) =
                mj.id :: (L'.map SerializedMask.id).filter
                  (fun x => decide (x ∉ asg)) := by
              simp [List.filter_cons, hasg]
            rw [h1, h2]
            exact List.perm_middle.trans (List.Perm.cons _ hperm)

/-- Specification of the outer loop of `groupMasksByNormal`: the member
lists of the produced groups, concatenated, are a permutation of the
already-produced members plus the ids not yet assigned. -/
theorem groupOuter_perm (c : ℝ) (ms : List SerializedMask)
    (hnd : (ms.map SerializedMask.id).Nodup) :
    ∀ (asg : Finset ℕ) (gs : List (ℕ × List ℕ)),
    List.Perm (((groupOuter c ms asg gs).map Prod.snd).join)
      ((gs.map Prod.snd).join ++
        (ms.map SerializedMask.id).filter (fun x => decide (x ∉ asg))) := by
  induction ms with
  | nil => intro asg gs; simp [groupOuter]
  | cons m rest ih =>
      intro asg gs
      have hnd' : (rest.map SerializedMask.id).Nodup := (List.nodup_cons.1 hnd).2
      have hmrest : m.id ∉ rest.map SerializedMask.id := (List.nodup_cons.1 hnd).1
      by_cases hasg : m.id ∈ asg
      · have h := ih hnd' asg gs
        have hstep : groupOuter c (m :: rest) asg gs = groupOuter c rest asg gs := by
          simp [groupOuter, hasg]
        rw [hstep]
        simpa [List.filter_cons, hasg] using h
      · obtain ⟨Δ, heq, hmem, hperm⟩ := groupInner_spec
          (normalizeVector m.avgNormal) c rest hnd' [m.id] (insert m.id asg)
        have hstep : groupOuter c (m :: rest) asg gs =
            groupOuter c rest (insert m.id asg ∪ Δ.toFinset)
              (gs ++ [(m.id, [m.id] ++ Δ)]) := by
          simp only [groupOuter, if_neg hasg, heq]
        rw [hstep]
        have hrec := ih hnd' (insert m.id asg ∪ Δ.toFinset)
          (gs ++ [(m.id, [m.id] ++ Δ)])
        have hfc : (rest.map SerializedMask.id).filter
            (fun x => decide (x ∉ insert m.id asg)) =
            (rest.map SerializedMask.id).filter (fun x => decide (x ∉ asg)) := by
          refine List.filter_congr ?_
          intro x hx
          have hxne : x ≠ m.id := fun h => hmrest (h ▸ hx)
          simp [hxne]
        have hmid : (((gs ++ [(m.id, [m.id] ++ Δ)]).map Prod.snd).join) =
            (gs.map Prod.snd).join ++ ((m.id :: Δ) ++
              ([] : List ℕ)) := by
          simp
        refine hrec.trans ?_
        rw [hmid]
        simp only [List.map_cons]
        have h2 : (m.id :: rest.map SerializedMask.id).filter
            (fun x => decide (x ∉ asg)) =
            m.id :: (rest.map SerializedMask.id).filter
              (fun x => decide (x ∉ asg)) := by
          simp [List.filter_cons, hasg]
        rw [h2]
        have hcore : List.Perm
            (((m.id :: Δ) ++ ([] : List ℕ)) ++
              (rest.map SerializedMask.id).filter
                (fun x => decide (x ∉ insert m.id asg ∪ Δ.toFinset)))
            (m.id :: (rest.map SerializedMask.id).filter
              (fun x => decide (x ∉ asg))) := by
          simp only [List.append_nil, List.cons_append]
          exact List.Perm.cons _ (hperm.trans (by rw [hfc]))
        have := List.Perm.append_left ((gs.map Prod.snd).join) hcore
        simpa [List.append_assoc] using this

end MaskGenerator

/-! ## Claim theorems -/

/-- **C10.** For every input list of masks with pairwise distinct ids and
every angle tolerance, the groups returned by `groupMasksByNormal` form a
partition of the input: the concatenation of all group member lists is a
permutation of the input id list, so every mask id appears in exactly one
group, exactly once. -/
theorem groupMasksByNormal_partition (masks : List SerializedMask)
    (angleTolerance : ℝ) (hnd : (masks.map SerializedMask.id).Nodup) :
    List.Perm
      (((MaskGenerator.groupMasksByNormal masks angleTolerance).map Prod.snd).join)
      (masks.map SerializedMask.id) ∧
    ∀ m ∈ masks,
      (((MaskGenerator.groupMasksByNormal masks angleTolerance).map
        Prod.snd).join).count m.id = 1 := by
  have h := MaskGenerator.groupOuter_perm
    (Real.cos (angleTolerance * Real.pi / 180)) masks hnd ∅ []
  simp only [List.map_nil, List.join, List.nil_append, Finset.not_mem_empty,
    not_false_iff, decide_True, List.filter_true] at h
  have hperm : List.Perm
      (((MaskGenerator.groupMasksByNormal masks angleTolerance).map Prod.snd).join)
      (masks.map SerializedMask.id) := by
    simpa [MaskGenerator.groupMasksByNormal] using h
  refine ⟨hperm, ?_⟩
  intro m hm
  rw [hperm.count_eq]
  exact List.count_eq_one_of_mem hnd (List.mem_map_of_mem _ hm)

/-- **C4 (counterexample).** Segmentation does not fail fast on malformed
input: on a zero-area buffer pair (same dimensions, zero area — one of the
conditions the claim says must be rejected) `generateMasks` proceeds and
returns an ordinary (empty) region list.  Its codomain has no failure
channel at all: the TypeScript source contains no dimension check and no
`throw`. -/
theorem generateMasks_no_validation_cex :
    MaskGenerator.generateMasks emptyImage emptyImage = [] := by
  simp [MaskGenerator.generateMasks, emptyImage]

/-- **C4 (amended).** `generateMasks` performs no input validation: it is a
total function on buffer pairs, and on any zero-area edge buffer it
returns the empty mask list rather than signalling a malformed-input
condition (mismatched dimensions are likewise not detected; the loops are
simply driven by the edge buffer's dimensions). -/
theorem generateMasks_zero_area (edgeData normalData : MaskGenerator.ImageDataLike)
    (h : edgeData.width * edgeData.height = 0) :
    MaskGenerator.generateMasks edgeData normalData = [] := by
  simp [MaskGenerator.generateMasks, h]

/-- Witness for **C4 (amended)** at the concrete zero-area buffer. -/
theorem generateMasks_zero_area_witness :
    emptyImage.width * emptyImage.height = 0 ∧
    MaskGenerator.generateMasks emptyImage emptyImage = [] :=
  ⟨rfl, generateMasks_zero_area emptyImage emptyImage rfl⟩

namespace MaskGenerator

/-- The flood-fill loop never collects more than `MAX_FLOOD_FILL_STACK`
pixels beyond what it was handed: the guard is re-checked before every
pop, and each iteration appends at most one pixel. -/
theorem floodFillLoop_length_le (edge : ImageDataLike) :
    ∀ (visited : Finset ℕ) (stack : List (ℤ × ℤ)) (pixels : List ℕ),
    pixels.length ≤ MAX_FLOOD_FILL_STACK →
    (floodFillLoop edge visited stack pixels).1.length ≤ MAX_FLOOD_FILL_STACK := by
  intro visited stack pixels
  induction visited, stack, pixels using floodFillLoop.induct edge with
  | case1 visited pixels =>
      intro h; simpa [floodFillLoop] using h
  | case2 visited x y rest pixels hguard =>
      intro h
      rw [floodFillLoop, if_pos hguard]
      exact h
  | case3 visited x y rest pixels hguard hb ih =>
      intro h
      rw [floodFillLoop, if_neg hguard, dif_pos hb]
      exact ih h
  | case4 visited x y rest pixels hguard hb hv ih =>
      intro h
      rw [floodFillLoop, if_neg hguard, dif_neg hb, dif_pos hv]
      exact ih h
  | case5 visited x y rest pixels hguard hb hv he ih =>
      intro h
      rw [floodFillLoop, if_neg hguard, dif_neg hb, dif_neg hv, if_pos he]
      exact ih h
  | case6 visited x y rest pixels hguard hb hv he ih =>
      intro h
      rw [floodFillLoop, if_neg hguard, dif_neg hb, dif_neg hv, if_neg he]
      refine ih ?_
      simp only [List.length_append, List.length_singleton]
      omega

/-- Full specification of the flood-fill loop's effect on its state: the
collected pixels grow by some list `Δ` of previously unvisited, in-bounds,
non-edge pixel addresses with no duplicates, and the visited set grows by
exactly the pixels of `Δ`. -/
theorem floodFillLoop_spec (edge : ImageDataLike) :
    ∀ (visited : Finset ℕ) (stack : List (ℤ × ℤ)) (pixels : List ℕ),
    ∃ Δ : List ℕ,
      (floodFillLoop edge visited stack pixels).1 = pixels ++ Δ ∧
      (floodFillLoop edge visited stack pixels).2 = visited ∪ Δ.toFinset ∧
      Δ.Nodup ∧
      ∀ p ∈ Δ, p ∉ visited ∧ p < edge.width * edge.height ∧
        isEdgePixel edge (p % edge.width) (p / edge.width) = false := by
  intro visited stack pixels
  induction visited, stack, pixels using floodFillLoop.induct edge with
  | case1 visited pixels =>
      exact ⟨[], by simp [floodFillLoop], by simp [floodFillLoop], List.nodup_nil,
        by simp⟩
  | case2 visited x y rest pixels hguard =>
      refine ⟨[], ?_, ?_, List.nodup_nil, by simp⟩
      · rw [floodFillLoop, if_pos hguard]; simp
      · rw [floodFillLoop, if_pos hguard]; simp
  | case3 visited x y rest pixels hguard hb ih =>
      obtain ⟨Δ, h1, h2, h3, h4⟩ := ih
      refine ⟨Δ, ?_, ?_, h3, h4⟩
      · rw [floodFillLoop, if_neg hguard, dif_pos hb]; exact h1
      · rw [floodFillLoop, if_neg hguard, dif_pos hb]; exact h2
  | case4 visited x y rest pixels hguard hb hv ih =>
      obtain ⟨Δ, h1, h2, h3, h4⟩ := ih
      refine ⟨Δ, ?_, ?_, h3, h4⟩
      · rw [floodFillLoop, if_neg hguard, dif_neg hb, dif_pos hv]; exact h1
      · rw [floodFillLoop, if_neg hguard, dif_neg hb, dif_pos hv]; exact h2
  | case5 visited x y rest pixels hguard hb hv he ih =>
      obtain ⟨Δ, h1, h2, h3, h4⟩ := ih
      refine ⟨Δ, ?_, ?_, h3, h4⟩
      · rw [floodFillLoop, if_neg hguard, dif_neg hb, dif_neg hv, if_pos he]
        exact h1
      · rw [floodFillLoop, if_neg hguard, dif_neg hb, dif_neg hv, if_pos he]
        exact h2
  | case6 visited x y rest pixels hguard hb hv he ih =>
      obtain ⟨Δ', h1, h2, h3, h4⟩ := ih
      push_neg at hb
      obtain ⟨hx0, hxw, hy0, hyh⟩ := hb
      have hxnat : x.toNat < edge.width := by omega
      have hynat : y.toNat < edge.height := by omega
      have hwpos : 0 < edge.width := Nat.pos_of_ne_zero (by omega)
      have hbound : y.toNat * edge.width + x.toNat < edge.width * edge.height := by
        calc y.toNat * edge.width + x.toNat
            < y.toNat * edge.width + edge.width := by omega
          _ = (y.toNat + 1) * edge.width := by ring
          _ ≤ edge.height * edge.width := Nat.mul_le_mul_right _ (by omega)
          _ = edge.width * edge.height := Nat.mul_comm _ _
      have hmod : (y.toNat * edge.width + x.toNat) % edge.width = x.toNat := by
        rw [Nat.mul_comm, Nat.mul_add_mod, Nat.mod_eq_of_lt hxnat]
      have hdiv : (y.toNat * edge.width + x.toNat) / edge.width = y.toNat := by
        rw [Nat.add_comm, Nat.add_mul_div_right _ _ hwpos,
          Nat.div_eq_of_lt hxnat]
        omega
      have hef : isEdgePixel edge x.toNat y.toNat = false := by
        revert he; cases isEdgePixel edge x.toNat y.toNat <;> simp
      refine ⟨(y.toNat * edge.width + x.toNat) :: Δ', ?_, ?_, ?_, ?_⟩
      · rw [floodFillLoop, if_neg hguard, dif_neg (by push_neg; exact ⟨hx0, hxw, hy0, hyh⟩),
          dif_neg hv, if_neg he, h1]
        simp
      · rw [floodFillLoop, if_neg hguard, dif_neg (by push_neg; exact ⟨hx0, hxw, hy0, hyh⟩),
          dif_neg hv, if_neg he, h2]
        rw [List.toFinset_cons, Finset.insert_union, Finset.union_insert]
      · refine List.nodup_cons.2 ⟨?_, h3⟩
        intro hmem
        exact (h4 _ hmem).1 (Finset.mem_insert_self _ _)
      · intro p hp
        rcases List.mem_cons.1 hp with rfl | hp'
        · exact ⟨hv, hbound, by rw [hmod, hdiv]; exact hef⟩
        · have h5 := h4 p hp'
          refine ⟨fun hmem => h5.1 (Finset.mem_insert_of_mem hmem), h5.2.1, h5.2.2⟩

/-- Specification of `floodFill`: it returns a duplicate-free list of
previously unvisited, in-bounds, non-edge pixels and marks exactly those
pixels visited. -/
theorem floodFill_spec (edgeData : ImageDataLike) (visited : Finset ℕ)
    (startX startY : ℕ) :
    (floodFill edgeData visited startX startY).1.Nodup ∧
    (floodFill edgeData visited startX startY).2 =
      visited ∪ (floodFill edgeData visited startX startY).1.toFinset ∧
    ∀ p ∈ (floodFill edgeData visited startX startY).1,
      p ∉ visited ∧ p < edgeData.width * edgeData.height ∧
        isEdgePixel edgeData (p % edgeData.width) (p / edgeData.width) = false := by
  obtain ⟨Δ, h1, h2, h3, h4⟩ := floodFillLoop_spec edgeData visited
    [((startX : ℤ), (startY : ℤ))] []
  rw [List.nil_append] at h1
  refine ⟨?_, ?_, ?_⟩
  · rw [floodFill, h1]; exact h3
  · rw [floodFill, h2, h1]
  · rw [floodFill, h1]; exact h4

/-- The invariant maintained by the scan loop of `generateMasks`: all
emitted masks have duplicate-free, in-bounds, non-edge, already-visited
pixel lists and are pairwise disjoint. -/
theorem generateStep_invariant (edgeData normalData : ImageDataLike)
    (st : GenState) (idx : ℕ)
    (h : (∀ m ∈ st.masks, m.pixelIndices.Nodup) ∧
      (∀ m ∈ st.masks, ∀ p ∈ m.pixelIndices, p ∈ st.visited ∧
        p < edgeData.width * edgeData.height ∧
        isEdgePixel edgeData (p % edgeData.width) (p / edgeData.width) = false) ∧
      List.Pairwise (fun m1 m2 => ∀ p ∈ m1.pixelIndices, p ∉ m2.pixelIndices)
        st.masks) :
    (∀ m ∈ (generateStep edgeData normalData st idx).masks, m.pixelIndices.Nodup) ∧
    (∀ m ∈ (generateStep edgeData normalData st idx).masks,
      ∀ p ∈ m.pixelIndices, p ∈ (generateStep edgeData normalData st idx).visited ∧
        p < edgeData.width * edgeData.height ∧
        isEdgePixel edgeData (p % edgeData.width) (p / edgeData.width) = false) ∧
    List.Pairwise (fun m1 m2 => ∀ p ∈ m1.pixelIndices, p ∉ m2.pixelIndices)
      (generateStep edgeData normalData st idx).masks := by
  obtain ⟨hnd, hmem, hdisj⟩ := h
  by_cases hvis : idx ∈ st.visited
  · rw [generateStep, if_pos hvis]
    exact ⟨hnd, hmem, hdisj⟩
  · obtain ⟨fnd, fvis, fmem⟩ := floodFill_spec edgeData st.visited
      (idx % edgeData.width) (idx / edgeData.width)
    rw [generateStep, if_neg hvis]
    by_cases hsmall :
        (floodFill edgeData st.visited (idx % edgeData.width)
          (idx / edgeData.width)).1.length < MIN_MASK_SIZE
    · rw [if_pos hsmall]
      refine ⟨hnd, ?_, hdisj⟩
      intro m hm p hp
      refine ⟨?_, (hmem m hm p hp).2.1, (hmem m hm p hp).2.2⟩
      rw [fvis]
      exact Finset.mem_union_left _ (hmem m hm p hp).1
    · rw [if_neg hsmall]
      simp only [List.mem_append, List.mem_singleton]
      refine ⟨?_, ?_, ?_⟩
      · rintro m (hm | rfl)
        · exact hnd m hm
        · exact fnd
      · rintro m (hm | rfl) p hp
        · refine ⟨?_, (hmem m hm p hp).2.1, (hmem m hm p hp).2.2⟩
          rw [fvis]
          exact Finset.mem_union_left _ (hmem m hm p hp).1
        · refine ⟨?_, (fmem p hp).2.1, (fmem p hp).2.2⟩
          rw [fvis]
          exact Finset.mem_union_right _ (List.mem_toFinset.2 hp)
      · rw [List.pairwise_append]
        refine ⟨hdisj, List.pairwise_singleton _ _, ?_⟩
        intro m1 hm1 m2 hm2 p hp1
        rw [List.mem_singleton] at hm2
        subst hm2
        intro hp2
        exact (fmem p hp2).1 (hmem m1 hm1 p hp1).1

/-- The invariant of `generateStep_invariant` is preserved by the whole
row-major scan fold of `generateMasks`. -/
theorem generateFold_invariant (edgeData normalData : ImageDataLike) :
    ∀ (l : List ℕ) (st : GenState),
    ((∀ m ∈ st.masks, m.pixelIndices.Nodup) ∧
      (∀ m ∈ st.masks, ∀ p ∈ m.pixelIndices, p ∈ st.visited ∧
        p < edgeData.width * edgeData.height ∧
        isEdgePixel edgeData (p % edgeData.width) (p / edgeData.width) = false) ∧
      List.Pairwise (fun m1 m2 => ∀ p ∈ m1.pixelIndices, p ∉ m2.pixelIndices)
        st.masks) →
    ((∀ m ∈ (l.foldl (generateStep edgeData normalData) st).masks,
        m.pixelIndices.Nodup) ∧
      (∀ m ∈ (l.foldl (generateStep edgeData normalData) st).masks,
        ∀ p ∈ m.pixelIndices,
          p ∈ (l.foldl (generateStep edgeData normalData) st).visited ∧
          p < edgeData.width * edgeData.height ∧
          isEdgePixel edgeData (p % edgeData.width) (p / edgeData.width) = false) ∧
      List.Pairwise (fun m1 m2 => ∀ p ∈ m1.pixelIndices, p ∉ m2.pixelIndices)
        (l.foldl (generateStep edgeData normalData) st).masks) := by
  intro l
  induction l with
  | nil => intro st h; exact h
  | cons idx t ih =>
      intro st h
      rw [List.foldl_cons]
      exact ih _ (generateStep_invariant edgeData normalData st idx h)

/-- **C3 (amended).** A flood-fill run silently truncates at the safety
ceiling: the collected pixel list never exceeds `MAX_FLOOD_FILL_STACK`
entries, and nothing else in the return value reports that the ceiling
was hit — the caller receives only the (possibly truncated) pixel list. -/
theorem floodFill_length_le (edgeData : ImageDataLike) (visited : Finset ℕ)
    (startX startY : ℕ) :
    (floodFill edgeData visited startX startY).1.length ≤ MAX_FLOOD_FILL_STACK :=
  floodFillLoop_length_le edgeData visited _ [] (by simp [MAX_FLOOD_FILL_STACK])

end MaskGenerator

/-- **C1.** For every edge map and normal map, the regions returned by
`generateMasks` partition their pixels: each region's `pixelIndices` list
is duplicate-free, the regions are pairwise disjoint (equivalently, the
concatenation of all regions' pixel lists is duplicate-free, so every
pixel address lies in at most one region, exactly once), every member
pixel address is inside the image, and no member pixel is an edge pixel —
pixels outside every region are exactly the edge/noise/void pixels, so
the regions plus those pixels cover the pixel space exactly once. -/
theorem generateMasks_partition (edgeData normalData : MaskGenerator.ImageDataLike) :
    (∀ m ∈ MaskGenerator.generateMasks edgeData normalData,
      m.pixelIndices.Nodup) ∧
    List.Pairwise (fun m1 m2 => ∀ p ∈ m1.pixelIndices, p ∉ m2.pixelIndices)
      (MaskGenerator.generateMasks edgeData normalData) ∧
    (((MaskGenerator.generateMasks edgeData normalData).map
      SerializedMask.pixelIndices).join).Nodup ∧
    ∀ m ∈ MaskGenerator.generateMasks edgeData normalData,
      ∀ p ∈ m.pixelIndices,
        p < edgeData.width * edgeData.height ∧
        MaskGenerator.isEdgePixel edgeData (p % edgeData.width)
          (p / edgeData.width) = false := by
  have h := MaskGenerator.generateFold_invariant edgeData normalData
    (List.range (edgeData.width * edgeData.height))
    ⟨MaskGenerator.initialVisited edgeData, [], 0⟩
    (by refine ⟨?_, ?_, ?_⟩ <;> simp)
  obtain ⟨hnd, hmem, hdisj⟩ := h
  refine ⟨?_, ?_, ?_, ?_⟩
  · intro m hm
    exact hnd m hm
  · exact hdisj
  · rw [List.nodup_join]
    constructor
    · intro l hl
      obtain ⟨m, hm, rfl⟩ := List.mem_map.1 hl
      exact hnd m hm
    · rw [List.pairwise_map]
      refine hdisj.imp ?_
      intro m1 m2 h12 p hp1 hp2
      exact h12 p hp1 hp2
  · intro m hm p hp
    exact ⟨(hmem m hm p hp).2.1, (hmem m hm p hp).2.2⟩

/-- `wideImage` has no edge pixels: every byte is 255, so the grayscale
mean is 255 ≥ 200. -/
theorem wideImage_no_edge (a b : ℕ) :
    MaskGenerator.isEdgePixel wideImage a b = false := by
  simp only [MaskGenerator.isEdgePixel, wideImage]
  exact decide_eq_false (by norm_num [MaskGenerator.EDGE_THRESHOLD])

/-- On `wideImage`, from the state reached just after visiting pixel `x`
(visited and collected `0..x`, stack = the four neighbours of `(x, 0)`),
the loop marches right one pixel every four iterations until the pixel
count reaches `MAX_FLOOD_FILL_STACK`, where it stops with the truncated
prefix. -/
theorem wideImage_march : ∀ (k x : ℕ),
    x + k + 1 = MaskGenerator.MAX_FLOOD_FILL_STACK →
    MaskGenerator.floodFillLoop wideImage (Finset.range (x + 1)) (marchStack x)
      (List.range (x + 1)) =
    (List.range MaskGenerator.MAX_FLOOD_FILL_STACK,
      Finset.range MaskGenerator.MAX_FLOOD_FILL_STACK) := by
  intro k
  induction k with
  | zero =>
      intro x hx
      have hx1 : x + 1 = MaskGenerator.MAX_FLOOD_FILL_STACK := by omega
      rw [marchStack, MaskGenerator.floodFillLoop,
        if_pos (by simp [List.length_range]; omega)]
      rw [hx1]
  | succ k ih =>
      intro x hx
      have hx5 : x + k + 2 = 5000000 := by
        have h := hx
        simp only [MaskGenerator.MAX_FLOOD_FILL_STACK] at h
        omega
      have hguard : ¬(MaskGenerator.MAX_FLOOD_FILL_STACK ≤
          (List.range (x + 1)).length) := by
        simp only [List.length_range, MaskGenerator.MAX_FLOOD_FILL_STACK]
        omega
      -- step D, shared by both cases of step C below: pop `(x+1, 0)`,
      -- visit it, push its neighbours, and recurse
      have hD : MaskGenerator.floodFillLoop wideImage (Finset.range (x + 1))
          [((x : ℤ) + 1, 0)] (List.range (x + 1)) =
          (List.range MaskGenerator.MAX_FLOOD_FILL_STACK,
            Finset.range MaskGenerator.MAX_FLOOD_FILL_STACK) := by
        rw [MaskGenerator.floodFillLoop, if_neg hguard]
        rw [dif_neg (by simp only [wideImage]; push_neg; omega)]
        rw [dif_neg (by
          simp only [wideImage, Finset.mem_range]
          omega)]
        rw [if_neg (by simp [wideImage_no_edge])]
        have hxt : ((0 : ℤ).toNat * wideImage.width + ((x : ℤ) + 1).toNat) = x + 1 := by
          simp only [wideImage]
          omega
        rw [hxt]
        have hvis : insert (x + 1) (Finset.range (x + 1)) = Finset.range (x + 1 + 1) :=
          (Finset.range_succ).symm
        have hpix : List.range (x + 1) ++ [x + 1] = List.range (x + 1 + 1) :=
          (List.range_succ (x + 1)).symm
        rw [hvis, hpix]
        have hstack : [((x : ℤ) + 1, (0 : ℤ) - 1), ((x : ℤ) + 1, (0 : ℤ) + 1),
            ((x : ℤ) + 1 - 1, (0 : ℤ)), ((x : ℤ) + 1 + 1, (0 : ℤ))] =
            marchStack (x + 1) := by
          simp only [marchStack]
          push_cast
          norm_num
        rw [hstack]
        exact ih (x + 1) (by omega)
      -- step A: pop `(x, -1)` — out of bounds below the row
      rw [marchStack, MaskGenerator.floodFillLoop, if_neg hguard,
        dif_pos (by right; right; left; norm_num)]
      -- step B: pop `(x, 1)` — out of bounds above the row
      rw [MaskGenerator.floodFillLoop, if_neg hguard,
        dif_pos (by right; right; right; simp [wideImage])]
      -- step C: pop `(x-1, 0)` — out of bounds for x = 0, visited otherwise
      rw [MaskGenerator.floodFillLoop, if_neg hguard]
      rcases Nat.eq_zero_or_pos x with hx0 | hxpos
      · subst hx0
        rw [dif_pos (by left; norm_num)]
        exact hD
      · rw [dif_neg (by simp only [wideImage]; push_neg; omega)]
        rw [dif_pos (by
          simp only [wideImage, Finset.mem_range]
          omega)]
        exact hD

/-- The first loop iteration on `wideImage` visits the seed `(0, 0)` and
leaves the state `wideImage_march` starts from. -/
theorem wideImage_first_step :
    MaskGenerator.floodFill wideImage ∅ 0 0 =
      MaskGenerator.floodFillLoop wideImage (Finset.range 1) (marchStack 0)
        (List.range 1) := by
  rw [MaskGenerator.floodFill, MaskGenerator.floodFillLoop]
  rw [if_neg (by simp [MaskGenerator.MAX_FLOOD_FILL_STACK])]
  rw [dif_neg (by simp only [wideImage]; push_neg; omega)]
  rw [dif_neg (by simp)]
  rw [if_neg (by simp [wideImage_no_edge])]
  have h1 : List.range 1 = [0] := rfl
  norm_num [marchStack, Finset.range_one, h1, wideImage]

/-- On `wideImage`, the flood fill from the origin returns exactly the
first `MAX_FLOOD_FILL_STACK` pixel addresses of the row and stops. -/
theorem wideImage_floodFill_eq :
    MaskGenerator.floodFill wideImage ∅ 0 0 =
      (List.range 5000000, Finset.range 5000000) := by
  rw [wideImage_first_step]
  have h := wideImage_march 4999999 0
    (by simp [MaskGenerator.MAX_FLOOD_FILL_STACK])
  simpa [MaskGenerator.MAX_FLOOD_FILL_STACK] using h

set_option maxRecDepth 4000 in
/-- **C3 (counterexample).** Hitting the flood-fill safety ceiling is a
silent truncation, not a reported condition: on the all-non-edge
1×5000001 `wideImage`, the fill from the origin returns a plain pixel
list of exactly `MAX_FLOOD_FILL_STACK` entries; pixel 5000000 is
in bounds, not an edge, and 4-adjacent to the collected pixel 4999999,
yet it is missing from the result, and the return value carries no
report of the truncation (its type is just the pixel list plus the
visited set). -/
theorem floodFill_silent_truncation_cex :
    (MaskGenerator.floodFill wideImage ∅ 0 0).1 = List.range 5000000 ∧
    (MaskGenerator.floodFill wideImage ∅ 0 0).1.length =
      MaskGenerator.MAX_FLOOD_FILL_STACK ∧
    (5000000 : ℕ) ∉ (MaskGenerator.floodFill wideImage ∅ 0 0).1 ∧
    (4999999 : ℕ) ∈ (MaskGenerator.floodFill wideImage ∅ 0 0).1 ∧
    MaskGenerator.isEdgePixel wideImage 5000000 0 = false := by
  have h1 : (MaskGenerator.floodFill wideImage ∅ 0 0).1 = List.range 5000000 := by
    rw [wideImage_floodFill_eq, Prod.fst]
  refine ⟨h1, ?_, ?_, ?_, wideImage_no_edge 5000000 0⟩
  · rw [h1, List.length_range, MaskGenerator.MAX_FLOOD_FILL_STACK]
  · rw [h1]
    simp only [List.mem_range]
    omega
  · rw [h1]
    simp only [List.mem_range]
    omega

/-- Witness for **C10** at two concrete masks with distinct ids. -/
theorem groupMasksByNormal_partition_witness :
    (([mkSmartMask 0, mkSmartMask 1].map SerializedMask.id).Nodup) ∧
    (List.Perm
      (((MaskGenerator.groupMasksByNormal [mkSmartMask 0, mkSmartMask 1] 30).map
        Prod.snd).join)
      ([mkSmartMask 0, mkSmartMask 1].map SerializedMask.id) ∧
    ∀ m ∈ [mkSmartMask 0, mkSmartMask 1],
      (((MaskGenerator.groupMasksByNormal [mkSmartMask 0, mkSmartMask 1] 30).map
        Prod.snd).join).count m.id = 1) :=
  ⟨by simp [mkSmartMask],
   groupMasksByNormal_partition [mkSmartMask 0, mkSmartMask 1] 30
     (by simp [mkSmartMask])⟩

/-- **C8.** The four-factor pairwise similarity score is symmetric: for every
pair of mask feature vectors, every image width/height, and every weight
tuple, `calculateSimilarity a b = calculateSimilarity b a`. -/
theorem calculateSimilarity_symm (a b : MaskUtils.MaskFeatures)
    (imageWidth imageHeight : ℕ) (weights : MaskUtils.SimWeights) :
    MaskUtils.calculateSimilarity a b imageWidth imageHeight weights =
      MaskUtils.calculateSimilarity b a imageWidth imageHeight weights := by
  simp only [MaskUtils.calculateSimilarity, MaskUtils.colorSimOf]
  have hc : ((a.avgColor.1 : ℝ) - b.avgColor.1) ^ 2 +
      ((a.avgColor.2.1 : ℝ) - b.avgColor.2.1) ^ 2 +
      ((a.avgColor.2.2 : ℝ) - b.avgColor.2.2) ^ 2 =
      ((b.avgColor.1 : ℝ) - a.avgColor.1) ^ 2 +
      ((b.avgColor.2.1 : ℝ) - a.avgColor.2.1) ^ 2 +
      ((b.avgColor.2.2 : ℝ) - a.avgColor.2.2) ^ 2 := by ring
  have hd : (a.centerX - b.centerX) * (a.centerX - b.centerX) +
      (a.centerY - b.centerY) * (a.centerY - b.centerY) =
      (b.centerX - a.centerX) * (b.centerX - a.centerX) +
      (b.centerY - a.centerY) * (b.centerY - a.centerY) := by ring
  rw [hc, hd, max_comm (a.area : ℝ) (b.area : ℝ), min_comm (a.area : ℝ) (b.area : ℝ)]
  ring

/-- **C5 (amended).** For every seed mask, mask list, mask data, optional
image data, and minimum threshold, `findSmartGroup` returns at most 16
regions (the 15-selection cap can be exceeded by exactly one when the
force-included seed is prepended); a region carrying the seed's id is
always in the result; and every returned region other than the prepended
seed passed both gates — colour similarity to the seed at least 0.88 and
overall score at least the adaptive cutoff, which itself is at least the
minimum threshold. -/
theorem findSmartGroup_bounds (seedMask : SerializedMask)
    (allMasks : List SerializedMask) (maskData : MaskData)
    (imageData : Option (ℕ → ℕ)) (similarityThreshold : ℝ) :
    (MaskUtils.findSmartGroup seedMask allMasks maskData imageData
      similarityThreshold).length ≤ 16 ∧
    (∃ m ∈ MaskUtils.findSmartGroup seedMask allMasks maskData imageData
      similarityThreshold, m.id = seedMask.id) ∧
    ∀ m ∈ MaskUtils.findSmartGroup seedMask allMasks maskData imageData
      similarityThreshold, m = seedMask ∨
      ((MaskUtils.smartEntry
          (MaskUtils.extractMaskFeatures seedMask maskData.width imageData)
          maskData.width maskData.height imageData m).colorSim ≥ 0.88 ∧
        (MaskUtils.smartEntry
          (MaskUtils.extractMaskFeatures seedMask maskData.width imageData)
          maskData.width maskData.height imageData m).score ≥
          MaskUtils.adaptiveCut seedMask allMasks maskData imageData
            similarityThreshold ∧
        similarityThreshold ≤ MaskUtils.adaptiveCut seedMask allMasks maskData
          imageData similarityThreshold) := by
  have hlen := MaskUtils.smartFiltered_length_le seedMask allMasks maskData
    imageData similarityThreshold
  have hcut := MaskUtils.adaptiveCut_ge seedMask allMasks maskData imageData
    similarityThreshold
  rw [MaskUtils.findSmartGroup]
  by_cases hN : ((MaskUtils.smartFiltered seedMask allMasks maskData imageData
      similarityThreshold).find? (fun m => m.id == seedMask.id)).isNone
  · rw [if_pos hN]
    refine ⟨?_, ⟨seedMask, List.mem_cons_self _ _, rfl⟩, ?_⟩
    · simp only [List.length_cons]
      omega
    · intro m hm
      rcases List.mem_cons.1 hm with rfl | hm'
      · exact Or.inl rfl
      · obtain ⟨hc, hs⟩ := MaskUtils.smartFiltered_mem_spec seedMask allMasks
          maskData imageData similarityThreshold m hm'
        exact Or.inr ⟨hc, hs, hcut⟩
  · rw [if_neg hN]
    obtain ⟨m0, hm0⟩ : ∃ m0, (MaskUtils.smartFiltered seedMask allMasks maskData
        imageData similarityThreshold).find? (fun m => m.id == seedMask.id) =
        some m0 := by
      rcases hf : (MaskUtils.smartFiltered seedMask allMasks maskData imageData
          similarityThreshold).find? (fun m => m.id == seedMask.id) with _ | m0
      · rw [hf] at hN
        simp at hN
      · exact ⟨m0, hf⟩
    have hmem := List.mem_of_find?_eq_some hm0
    have hid : m0.id = seedMask.id := by
      have := List.find?_some hm0
      simpa using this
    refine ⟨by omega, ⟨m0, hmem, hid⟩, ?_⟩
    intro m hm
    obtain ⟨hc, hs⟩ := MaskUtils.smartFiltered_mem_spec seedMask allMasks
      maskData imageData similarityThreshold m hm
    exact Or.inr ⟨hc, hs, hcut⟩

/-- **C2.** For every `MaskData` whose masks are pairwise disjoint (with
in-range pixel addresses), the lookup built by `buildPixelLookup` maps
every member pixel of a mask to that mask's id and every unowned pixel to
the `-1` sentinel; and `findMaskAtPoint` returns `none` on every
coordinate outside the image bounds. -/
theorem buildPixelLookup_consistent (md : MaskData)
    (hdisj : md.masks.Pairwise
      (fun m1 m2 => ∀ p, p ∈ m1.pixelIndices → p ∉ m2.pixelIndices))
    (hbound : ∀ m ∈ md.masks, ∀ p ∈ m.pixelIndices, p < md.width * md.height) :
    (∀ m ∈ md.masks, ∀ p ∈ m.pixelIndices,
        MaskUtils.buildPixelLookup md p = (m.id : ℤ)) ∧
    (∀ p : ℕ, (∀ m ∈ md.masks, p ∉ m.pixelIndices) →
        MaskUtils.buildPixelLookup md p = -1) ∧
    (∀ (x y : ℤ) (lookup : ℕ → ℤ),
        (x < 0 ∨ (md.width : ℤ) ≤ x ∨ y < 0 ∨ (md.height : ℤ) ≤ y) →
        MaskUtils.findMaskAtPoint x y md lookup = none) := by
  refine ⟨?_, ?_, ?_⟩
  · intro m hm p hp
    exact MaskUtils.masksFold_apply_mem _ md.masks _ p m hdisj hm hp
      (hbound m hm p hp)
  · intro p hp
    exact MaskUtils.masksFold_apply_not_mem _ md.masks _ p hp
  · intro x y lookup hxy
    unfold MaskUtils.findMaskAtPoint
    rw [if_pos hxy]

/-- Witness for **C2** at a concrete 2×1 `MaskData` with one mask owning
pixel 0. -/
theorem buildPixelLookup_consistent_witness :
    (sampleMaskData.masks.Pairwise
      (fun m1 m2 => ∀ p, p ∈ m1.pixelIndices → p ∉ m2.pixelIndices)) ∧
    ((∀ m ∈ sampleMaskData.masks, ∀ p ∈ m.pixelIndices,
        MaskUtils.buildPixelLookup sampleMaskData p = (m.id : ℤ)) ∧
     (∀ p : ℕ, (∀ m ∈ sampleMaskData.masks, p ∉ m.pixelIndices) →
        MaskUtils.buildPixelLookup sampleMaskData p = -1) ∧
     (∀ (x y : ℤ) (lookup : ℕ → ℤ),
        (x < 0 ∨ (sampleMaskData.width : ℤ) ≤ x ∨ y < 0 ∨
          (sampleMaskData.height : ℤ) ≤ y) →
        MaskUtils.findMaskAtPoint x y sampleMaskData lookup = none)) :=
  ⟨by simp [sampleMaskData],
   buildPixelLookup_consistent sampleMaskData (by simp [sampleMaskData])
     (by simp [sampleMaskData])⟩

end Colourziller
